import Mathlib

set_option maxRecDepth 8000

namespace MiniCoreOS

/-!  Shallow embedding of the minicore-os kernel core (src/mm.c, src/isr.c,
src/scheduler.c).  Machine integers (size_t, uint32_t) are modelled as Nat
with explicit reduction modulo 2^32 where the C arithmetic can wrap.
Heap pointers are modelled as indices into the address-ordered block list;
the doubly linked prev/next pointers of mem_block_t are encoded by the
list order itself. -/

/-- sizeof(mem_block_t) on the i386 target: 4 (size) + 4 (is_free) +
4 (next) + 4 (prev) = 16 bytes. -/
def headerSize : Nat := 16

/-- KERNEL_HEAP_SIZE from mm.h: 0x00100000 bytes. -/
def heapCap : Nat := 1048576

/-- Modulus of 32-bit size_t / uint32_t arithmetic. -/
def M32 : Nat := 4294967296

/-- Wrapping 32-bit addition (C unsigned addition). -/
def wadd (a b : Nat) : Nat := (a + b) % M32

/-- Wrapping 32-bit subtraction (C unsigned subtraction). -/
def wsub (a b : Nat) : Nat := (a % M32 + (M32 - b % M32)) % M32

/-- One block of the free-list allocator: the payload size and the
is_free flag of mem_block_t.  The prev/next links are encoded by the
position in the address-ordered list. -/
structure Block where
  size : Nat
  isFree : Bool
deriving DecidableEq, Repr

/-- Bytes a block occupies in the arena: its header plus its payload. -/
def blockSpan (b : Block) : Nat := headerSize + b.size

/-- Total number of arena bytes covered by a block list. -/
def sizeSum (bs : List Block) : Nat := (bs.map blockSpan).sum

/-- Heap state: the address-ordered block list plus the running
used_memory / free_memory counters of mem_stats (uint32 values). -/
structure Heap where
  blocks : List Block
  used : Nat
  free : Nat
deriving DecidableEq, Repr

/-- mm_init (mm.c lines 45-73): one free block spanning the arena,
used_memory = 0, free_memory = heap size minus one header. -/
def initHeap : Heap :=
  { blocks := [⟨heapCap - headerSize, true⟩]
    used := 0
    free := heapCap - headerSize }

/-- kmalloc size alignment (mm.c line 138): size = (size + 7) & ~7 in
32-bit size_t arithmetic (clears the low three bits). -/
def align8 (n : Nat) : Nat :=
  let m := (n + 7) % M32
  m - m % 8

/-- Result of a successful free-block search + split + mark-used pass:
the new block list, the size recorded into the stats (block->size after
the split), the index of the allocated block, and whether a split
happened. -/
structure GoOut where
  blocks : List Block
  allocSize : Nat
  idx : Nat
  didSplit : Bool
deriving DecidableEq, Repr

/-- find_free_block + split_block + mark used, fused exactly as kmalloc
(mm.c lines 76-105, 140-149) walks the list: take the first free block
with size >= sz; split it when its size strictly exceeds
sz + sizeof(header) + 32; mark it used. -/
def kmallocGo (sz : Nat) : List Block → Option GoOut
  | [] => none
  | b :: rest =>
    if b.isFree = true ∧ sz ≤ b.size then
      if sz + headerSize + 32 < b.size then
        some ⟨⟨sz, false⟩ :: ⟨b.size - sz - headerSize, true⟩ :: rest, sz, 0, true⟩
      else
        some ⟨⟨b.size, false⟩ :: rest, b.size, 0, false⟩
    else
      match kmallocGo sz rest with
      | none => none
      | some out => some ⟨b :: out.blocks, out.allocSize, out.idx + 1, out.didSplit⟩

/-- Identity of a successful allocation: index of the block handed out
and whether the source block was split. -/
structure AllocInfo where
  idx : Nat
  didSplit : Bool
deriving DecidableEq, Repr

/-- kmalloc (mm.c lines 132-158): reject size 0, align to 8 bytes,
first-fit scan, split, mark used, update used_memory / free_memory by
block->size. -/
def kmalloc (h : Heap) (size : Nat) : Heap × Option AllocInfo :=
  if size = 0 then (h, none)
  else
    match kmallocGo (align8 size) h.blocks with
    | none => (h, none)
    | some out =>
      (⟨out.blocks, wadd h.used out.allocSize, wsub h.free out.allocSize⟩,
       some ⟨out.idx, out.didSplit⟩)

/-- merge_free_blocks (mm.c lines 108-129) at list index i: absorb the
maximal run of free blocks directly after i, then the maximal run of
free blocks directly before i; every absorbed block contributes its
payload plus its header to the surviving block. -/
def mergeAt (bs : List Block) (i : Nat) : List Block :=
  match bs.get? i with
  | none => bs
  | some b =>
    let pre := bs.take i
    let suf := bs.drop (i + 1)
    let preRun := (pre.reverse.takeWhile Block.isFree).reverse
    let preKeep := (pre.reverse.dropWhile Block.isFree).reverse
    let sufRun := suf.takeWhile Block.isFree
    let sufKeep := suf.dropWhile Block.isFree
    preKeep ++ ⟨b.size + ((preRun ++ sufRun).map blockSpan).sum, true⟩ :: sufKeep

/-- kfree (mm.c lines 199-222) of the block at index i: silent no-op on
an already-free block (double free), otherwise mark free, update the
counters by block->size, and coalesce with the adjacent free runs.
(The NULL-pointer no-op needs no representation: it does not touch the
heap.) -/
def kfree (h : Heap) (i : Nat) : Heap :=
  match h.blocks.get? i with
  | none => h
  | some b =>
    if b.isFree = true then h
    else
      ⟨mergeAt (h.blocks.set i ⟨b.size, true⟩) i,
       wsub h.used b.size, wadd h.free b.size⟩

/-- split_block (mm.c lines 90-105) as a local list rewrite: split when
the block size strictly exceeds size + sizeof(header) + 32, keeping the
original is_free flag on the front part (krealloc calls this on a used
block). -/
def splitBlock (b : Block) (sz : Nat) : List Block :=
  if sz + headerSize + 32 < b.size then
    [⟨sz, b.isFree⟩, ⟨b.size - sz - headerSize, true⟩]
  else [b]

/-- Replace the block at an index by a short list of blocks. -/
def replaceIdx : List Block → Nat → (Block → List Block) → List Block
  | [], _, _ => []
  | b :: rest, 0, f => f b ++ rest
  | b :: rest, n + 1, f => b :: replaceIdx rest n f

/-- krealloc (mm.c lines 225-251) of the block at index i.  newSize 0
behaves as free; if the current block already covers newSize it is
split in place (no counter update); otherwise allocate fresh, copy, and
free the original (whose index shifts by one when the allocation split
a block at a lower address). -/
def krealloc (h : Heap) (i : Nat) (newSize : Nat) : Heap × Option Nat :=
  if newSize = 0 then (kfree h i, none)
  else
    match h.blocks.get? i with
    | none => (h, none)
    | some b =>
      if newSize ≤ b.size then
        ({ h with blocks := replaceIdx h.blocks i (fun c => splitBlock c newSize) }, some i)
      else
        match kmalloc h newSize with
        | (_, none) => (h, none)
        | (h1, some info) =>
          let iOld := if info.didSplit = true ∧ info.idx < i then i + 1 else i
          (kfree h1 iOld, some info.idx)

/-- Outcome of kcalloc: division by zero (undefined behaviour of the C
expression total_size / count when count is 0), failed overflow check,
or an ordinary allocation. -/
inductive CallocResult
  | ub
  | overflowFail
  | alloc (res : Heap × Option AllocInfo)
deriving DecidableEq, Repr

/-- kcalloc (mm.c lines 184-196): total_size = count * size in wrapping
size_t arithmetic; the check total_size / count != size divides by zero
when count = 0; otherwise allocate (the zero-fill touches only payload
bytes, which the block-list model does not carry). -/
def kcalloc (h : Heap) (count size : Nat) : CallocResult :=
  if count = 0 then CallocResult.ub
  else if ((count * size) % M32) / count = size then
    CallocResult.alloc (kmalloc h ((count * size) % M32))
  else CallocResult.overflowFail

/-- Heap states reachable from mm_init by kmalloc / kfree / krealloc
(pointers passed to kfree / krealloc are existing blocks; NULL frees
leave the heap untouched and need no transition). -/
inductive Reach : Heap → Prop
  | init : Reach initHeap
  | malloc {h} (size : Nat) : Reach h → Reach (kmalloc h size).1
  | free {h} (i : Nat) : Reach h → i < h.blocks.length → Reach (kfree h i)
  | realloc {h} (i newSize : Nat) : Reach h → i < h.blocks.length →
      Reach (krealloc h i newSize).1

/-- Heap states reachable from mm_init by kmalloc / kfree only. -/
inductive ReachMF : Heap → Prop
  | init : ReachMF initHeap
  | malloc {h} (size : Nat) : ReachMF h → ReachMF (kmalloc h size).1
  | free {h} (i : Nat) : ReachMF h → i < h.blocks.length → ReachMF (kfree h i)

/-- No two blocks adjacent in the address-ordered list are both free. -/
def noAdjB : List Block → Bool
  | [] => true
  | [_] => true
  | a :: b :: rest => (!(a.isFree && b.isFree)) && noAdjB (b :: rest)

/-- The conserved heap facts: the block list exactly tiles the arena, and
the two running counters sum (in 32-bit arithmetic) to the constant
arena size minus a single header, their value at mm_init. -/
def conserved (h : Heap) : Prop :=
  sizeSum h.blocks = heapCap ∧ (h.used + h.free) % M32 = heapCap - headerSize

/-! ## Interrupt layer embedding (src/isr.c)

Hardware-visible effects of a dispatch are modelled as an event trace:
port writes of the End-Of-Interrupt byte to the slave / master PIC, and
invocation of a registered handler.  The handler table
interrupt_handlers[256] is modelled by the predicate telling whether the
entry is nonzero. -/

/-- One observable effect of interrupt dispatch. -/
inductive PicEvent
  | eoiSlave
  | eoiMaster
  | runHandler (vec : Nat)
deriving DecidableEq, Repr

/-- irq_ack (isr.c lines 119-127): EOI to the slave PIC when irq >= 8,
then always EOI to the master PIC. -/
def irqAck (irq : Nat) : List PicEvent :=
  (if 8 ≤ irq then [PicEvent.eoiSlave] else []) ++ [PicEvent.eoiMaster]

/-- irq_handler (isr.c lines 102-111): first irq_ack(int_no - 32) (the
argument is truncated to uint8_t), then the registered handler if any. -/
def irqDispatch (registered : Nat → Bool) (intNo : Nat) : List PicEvent :=
  irqAck ((intNo - 32) % 256)
    ++ (if registered intNo then [PicEvent.runHandler intNo] else [])

/-- exception_messages (isr.c lines 19-52): canonical names of the 32
CPU exception vectors. -/
def exceptionMessages : List String :=
  ["Division By Zero", "Debug", "Non Maskable Interrupt", "Breakpoint",
   "Into Detected Overflow", "Out of Bounds", "Invalid Opcode",
   "No Coprocessor", "Double Fault", "Coprocessor Segment Overrun",
   "Bad TSS", "Segment Not Present", "Stack Fault",
   "General Protection Fault", "Page Fault", "Unknown Interrupt",
   "Coprocessor Fault", "Alignment Check", "Machine Check",
   "Reserved", "Reserved", "Reserved", "Reserved", "Reserved", "Reserved",
   "Reserved", "Reserved", "Reserved", "Reserved", "Reserved", "Reserved",
   "Reserved"]

/-- Outcome of isr_handler: either a registered handler ran and the
dispatcher returned, or the dispatcher printed a diagnostic and entered
the while(1) hlt loop, modelled as the absorbing `halted` outcome. -/
inductive IsrOutcome
  | handled (vec : Nat)
  | halted (msg : String)
deriving DecidableEq, Repr

/-- isr_handler (isr.c lines 76-99): run the registered handler and
return; otherwise print the canonical exception name (the table entry
for vectors < 32, the string Unknown Exception otherwise) and halt
forever. -/
def isrDispatch (registered : Nat → Bool) (intNo : Nat) : IsrOutcome :=
  if registered intNo then IsrOutcome.handled intNo
  else IsrOutcome.halted
    (if intNo < 32 then exceptionMessages.getD intNo "" else "Unknown Exception")

/-! ## Scheduler embedding (src/scheduler.c)

The task pool tasks[MAX_TASKS], the ready queue (an intrusive linked
list of task pointers), current_task, system_ticks and next_task_id are
modelled as one record; task pointers are pool indices.  The name field,
the saved register context and the private stack of task_t are omitted:
no claim observes them, and the baseline switch_to_task updates
bookkeeping only.  The ghost field `trace` records the id of every task
installed by switch_to_task, i.e. the execution order. -/

/-- task_state_t from scheduler.h. -/
inductive TState
  | ready
  | running
  | sleeping
  | terminated
deriving DecidableEq, Repr

/-- The claim-relevant fields of task_t. -/
structure Task where
  id : Nat
  state : TState
  timeSlice : Nat
  timeRemaining : Nat
  sleepUntil : Nat
deriving DecidableEq, Repr

/-- MAX_TASKS from scheduler.h. -/
def MAX_TASKS : Nat := 8

/-- Scheduler state: pool, FIFO ready queue of pool indices,
current_task, system_ticks, next_task_id, plus the ghost execution
trace. -/
structure Sched where
  tasks : List Task
  queue : List Nat
  current : Option Nat
  ticks : Nat
  nextId : Nat
  trace : List Nat
deriving DecidableEq, Repr

/-- A cleared pool slot as left by scheduler_init. -/
def initTask : Task := ⟨0, TState.terminated, 0, 0, 0⟩

/-- scheduler_init (scheduler.c lines 35-52). -/
def initSched : Sched :=
  ⟨List.replicate MAX_TASKS initTask, [], none, 0, 1, []⟩

/-- switch_to_task (scheduler.c lines 176-193): mark running, reset the
slice, install as current (the register save/restore is bookkeeping
only in the baseline and is not modelled). -/
def switchTo (s : Sched) (i : Nat) : Sched :=
  match s.tasks.get? i with
  | some tk =>
    { s with
        tasks := s.tasks.set i { tk with state := TState.running,
                                         timeRemaining := tk.timeSlice }
        current := some i
        trace := s.trace ++ [tk.id] }
  | none => { s with current := some i }

/-- schedule (scheduler.c lines 157-173): dequeue the ready-queue head
(no task: plain return); if the current task is RUNNING, demote it to
READY with a reset slice and append it at the tail; then switch to the
dequeued task. -/
def schedule (s : Sched) : Sched :=
  match s.queue with
  | [] => s
  | next :: rest =>
    let s1 := { s with queue := rest }
    let s2 :=
      match s1.current with
      | some c =>
        match s1.tasks.get? c with
        | some tk =>
          if tk.state = TState.running then
            { s1 with
                tasks := s1.tasks.set c { tk with state := TState.ready,
                                                  timeRemaining := tk.timeSlice }
                queue := s1.queue ++ [c] }
          else s1
        | none => s1
      | none => s1
    switchTo s2 next

/-- The slot search loop of task_create (scheduler.c lines 58-63):
index of the first TERMINATED slot. -/
def findTermSlot : List Task → Option Nat
  | [] => none
  | tk :: rest =>
    if tk.state = TState.terminated then some 0
    else
      match findTermSlot rest with
      | none => none
      | some i => some (i + 1)

/-- task_create (scheduler.c lines 55-96): first TERMINATED slot, fresh
monotonic id (uint32), state READY, slice 10, enqueue; returns the id,
0 on pool exhaustion. -/
def taskCreate (s : Sched) : Sched × Nat :=
  match findTermSlot s.tasks with
  | none => (s, 0)
  | some i =>
    ({ s with
        tasks := s.tasks.set i ⟨s.nextId, TState.ready, 10, 10, 0⟩
        queue := s.queue ++ [i]
        nextId := (s.nextId + 1) % M32 }, s.nextId)

/-- The wake loop of scheduler_tick (scheduler.c lines 137-143), walking
the pool slots in index order on the live state: every SLEEPING task
whose wake time has arrived becomes READY and is appended to the queue. -/
def wakeGo (s : Sched) : List Nat → Sched
  | [] => s
  | i :: is2 =>
    match s.tasks.get? i with
    | some tk =>
      if tk.state = TState.sleeping ∧ tk.sleepUntil ≤ s.ticks then
        wakeGo { s with tasks := s.tasks.set i { tk with state := TState.ready }
                        queue := s.queue ++ [i] } is2
      else wakeGo s is2
    | none => wakeGo s is2

/-- scheduler_tick (scheduler.c lines 129-154): increment system_ticks
(uint32), wake sleepers, and only when a current task exists and
system_ticks > 100 (the boot grace window) decrement its remaining
slice (uint32) and call schedule() when it reaches zero. -/
def schedulerTick (s : Sched) : Sched :=
  let s1 := { s with ticks := (s.ticks + 1) % M32 }
  let s2 := wakeGo s1 (List.range MAX_TASKS)
  match s2.current with
  | some c =>
    if 100 < s2.ticks then
      match s2.tasks.get? c with
      | some tk =>
        let r := wsub tk.timeRemaining 1
        let s3 := { s2 with tasks := s2.tasks.set c { tk with timeRemaining := r } }
        if r = 0 then schedule s3 else s3
      | none => s2
    else s2
  | none => s2

/-- task_sleep (scheduler.c lines 201-207): mark the current task
SLEEPING with wake time system_ticks + ticks (uint32), then schedule. -/
def taskSleep (s : Sched) (k : Nat) : Sched :=
  match s.current with
  | some c =>
    match s.tasks.get? c with
    | some tk =>
      schedule { s with tasks := s.tasks.set c { tk with state := TState.sleeping,
                                                         sleepUntil := wadd s.ticks k } }
    | none => s
  | none => s

/-- task_exit (scheduler.c lines 210-216): mark the current task
TERMINATED, clear current_task, then schedule. -/
def taskExit (s : Sched) : Sched :=
  match s.current with
  | some c =>
    match s.tasks.get? c with
    | some tk =>
      schedule { s with tasks := s.tasks.set c { tk with state := TState.terminated }
                        current := none }
    | none => schedule { s with current := none }
  | none => s

/-- The scheduler API calls that drive the state machine: task_create,
the timer tick, task_yield (= schedule), task_sleep, task_exit. -/
inductive SOp
  | create
  | tick
  | yield
  | sleep (k : Nat)
  | exit
deriving DecidableEq, Repr

/-- One API call. -/
def step (s : Sched) : SOp → Sched
  | SOp.create => (taskCreate s).1
  | SOp.tick => schedulerTick s
  | SOp.yield => schedule s
  | SOp.sleep k => taskSleep s k
  | SOp.exit => taskExit s

/-- A sequence of API calls. -/
def stepList (s : Sched) (ops : List SOp) : Sched := ops.foldl step s

/-- n timer ticks. -/
def tickN : Nat → Sched → Sched
  | 0, s => s
  | n + 1, s => tickN n (schedulerTick s)

/-- Number of timer ticks in a call sequence; the remaining calls leave
system_ticks unchanged. -/
def countTicks : List SOp → Nat
  | [] => 0
  | SOp.tick :: rest => countTicks rest + 1
  | _ :: rest => countTicks rest

/-- Task slot c is shielded from the scheduler: its task satisfies P,
it is not in the ready queue, and it is not the current task.  Used
with P = asleep-until-w (sleep correctness) and P = terminated (exit
finality). -/
def Shielded (c : Nat) (P : Task → Prop) (s : Sched) : Prop :=
  (∃ tk, s.tasks.get? c = some tk ∧ P tk) ∧ c ∉ s.queue ∧ s.current ≠ some c

/-- Scenario B start state: three tasks created in order on a fresh
scheduler (slots 0, 1, 2 with ids 1, 2, 3, each slice 10), with the
tick counter set to t - "after any boot grace window has elapsed" is
the hypothesis 100 <= t. -/
def c6Start (t : Nat) : Sched :=
  { stepList initSched [SOp.create, SOp.create, SOp.create] with ticks := t }

/-- Call sequence for the C7 counterexample: create a task, dispatch
it, let it sleep 5 ticks on an empty ready queue (so the sleep call
returns to its caller without a context switch), run 5 ticks so it is
woken and re-enqueued while still being current_task, then let its
still-executing code call sleep(5) again at tick 5. -/
def c7Trace : List SOp :=
  [SOp.create, SOp.yield, SOp.sleep 5,
   SOp.tick, SOp.tick, SOp.tick, SOp.tick, SOp.tick, SOp.sleep 5]

/-- Call sequence for the C8 counterexample: same anomaly, but the
still-current, woken, queued task calls exit() instead. -/
def c8Trace : List SOp :=
  [SOp.create, SOp.yield, SOp.sleep 5,
   SOp.tick, SOp.tick, SOp.tick, SOp.tick, SOp.tick, SOp.exit]

/-- Heap reached by: mm_init; kmalloc(104); kmalloc(40); kmalloc(40);
kmalloc(40); kfree of the second 40-byte block; krealloc of the first
block down to 8 bytes.  The in-place shrinking krealloc splits the used
block and leaves its free remainder adjacent to the already free second
block without coalescing. -/
def c2Heap : Heap :=
  (krealloc
    (kfree (kmalloc (kmalloc (kmalloc (kmalloc initHeap 104).1 40).1 40).1 40).1 1)
    0 8).1

/-! ### Arithmetic and list bookkeeping lemmas -/

lemma wadd_wsub_sum (u f x : Nat) : (wadd u x + wsub f x) % M32 = (u + f) % M32 := by
  simp only [wadd, wsub, M32]
  omega

lemma wsub_wadd_sum (u f x : Nat) : (wsub u x + wadd f x) % M32 = (u + f) % M32 := by
  simp only [wadd, wsub, M32]
  omega

lemma sizeSum_nil : sizeSum [] = 0 := rfl

lemma sizeSum_cons (b : Block) (bs : List Block) :
    sizeSum (b :: bs) = blockSpan b + sizeSum bs := by
  simp [sizeSum]

lemma sizeSum_append (xs ys : List Block) :
    sizeSum (xs ++ ys) = sizeSum xs + sizeSum ys := by
  simp [sizeSum]

lemma list_decomp {bs : List Block} {i : Nat} {b : Block} (h : bs.get? i = some b) :
    bs = bs.take i ++ b :: bs.drop (i + 1) := by
  induction bs generalizing i with
  | nil => simp at h
  | cons a rest ih =>
    cases i with
    | zero =>
      simp only [List.get?] at h
      cases h
      simp
    | succ n =>
      simp only [List.get?] at h
      simpa using congrArg (a :: ·) (ih h)

lemma take_set (bs : List Block) (i : Nat) (x : Block) :
    (bs.set i x).take i = bs.take i := by
  induction bs generalizing i with
  | nil => simp
  | cons a rest ih =>
    cases i with
    | zero => simp
    | succ n => simpa using ih n

lemma drop_set (bs : List Block) (i : Nat) (x : Block) :
    (bs.set i x).drop (i + 1) = bs.drop (i + 1) := by
  induction bs generalizing i with
  | nil => simp
  | cons a rest ih =>
    cases i with
    | zero => simp
    | succ n => simpa using ih n

lemma get?_set_self {bs : List Block} {i : Nat} {b : Block} (h : bs.get? i = some b)
    (x : Block) : (bs.set i x).get? i = some x := by
  induction bs generalizing i with
  | nil => simp at h
  | cons a rest ih =>
    cases i with
    | zero => simp
    | succ n =>
      simp only [List.get?] at h ⊢
      exact ih h

lemma keep_run_eq (l : List Block) :
    (l.reverse.dropWhile Block.isFree).reverse ++ (l.reverse.takeWhile Block.isFree).reverse
      = l := by
  rw [← List.reverse_append, List.takeWhile_append_dropWhile, List.reverse_reverse]

lemma mergeAt_sizeSum (bs : List Block) (i : Nat) :
    sizeSum (mergeAt bs i) = sizeSum bs := by
  unfold mergeAt
  cases hb : bs.get? i with
  | none => rfl
  | some b =>
    dsimp only
    rw [sizeSum_append, sizeSum_cons]
    have e3 : sizeSum bs
        = sizeSum (bs.take i) + blockSpan b + sizeSum (bs.drop (i + 1)) := by
      conv_lhs => rw [list_decomp hb]
      rw [sizeSum_append, sizeSum_cons]
      ring
    have e1s : sizeSum ((bs.take i).reverse.dropWhile Block.isFree).reverse
        + sizeSum ((bs.take i).reverse.takeWhile Block.isFree).reverse
        = sizeSum (bs.take i) := by
      rw [← sizeSum_append, keep_run_eq]
    have e2s : sizeSum ((bs.drop (i + 1)).takeWhile Block.isFree)
        + sizeSum ((bs.drop (i + 1)).dropWhile Block.isFree)
        = sizeSum (bs.drop (i + 1)) := by
      rw [← sizeSum_append, List.takeWhile_append_dropWhile]
    have e4 : ((((bs.take i).reverse.takeWhile Block.isFree).reverse
          ++ (bs.drop (i + 1)).takeWhile Block.isFree).map blockSpan).sum
        = sizeSum ((bs.take i).reverse.takeWhile Block.isFree).reverse
          + sizeSum ((bs.drop (i + 1)).takeWhile Block.isFree) := by
      rw [show ∀ l : List Block, (l.map blockSpan).sum = sizeSum l from fun _ => rfl,
        sizeSum_append]
    rw [e4]
    simp only [blockSpan] at *
    omega

lemma sizeSum_set_same {bs : List Block} {i : Nat} {b : Block}
    (h : bs.get? i = some b) (fl : Bool) :
    sizeSum (bs.set i ⟨b.size, fl⟩) = sizeSum bs := by
  induction bs generalizing i with
  | nil => simp at h
  | cons a rest ih =>
    cases i with
    | zero =>
      simp only [List.get?] at h
      cases h
      simp [sizeSum_cons, blockSpan]
    | succ n =>
      simp only [List.get?] at h
      simp [sizeSum_cons, ih h]

lemma kmallocGo_sizeSum {sz : Nat} : ∀ {bs : List Block} {out : GoOut},
    kmallocGo sz bs = some out → sizeSum out.blocks = sizeSum bs := by
  intro bs
  induction bs with
  | nil => intro out h; simp [kmallocGo] at h
  | cons b rest ih =>
    intro out h
    unfold kmallocGo at h
    split at h
    · split at h
      · cases h
        rename_i hfit hsplit
        simp only [sizeSum_cons, blockSpan]
        omega
      · cases h
        simp [sizeSum_cons, blockSpan]
    · split at h
      · exact absurd h (by simp)
      · rename_i out1 hrec
        cases h
        simp [sizeSum_cons, ih hrec]

lemma splitBlock_sizeSum (b : Block) (sz : Nat) :
    sizeSum (splitBlock b sz) = blockSpan b := by
  unfold splitBlock
  by_cases hs : sz + headerSize + 32 < b.size
  · rw [if_pos hs]
    simp only [sizeSum, blockSpan, List.map_cons, List.map_nil, List.sum_cons,
      List.sum_nil]
    omega
  · rw [if_neg hs]
    simp [sizeSum, blockSpan]

lemma replaceIdx_sizeSum (bs : List Block) (i : Nat) (sz : Nat) :
    sizeSum (replaceIdx bs i (fun c => splitBlock c sz)) = sizeSum bs := by
  induction bs generalizing i with
  | nil => rfl
  | cons a rest ih =>
    cases i with
    | zero =>
      simp [replaceIdx, sizeSum_append, splitBlock_sizeSum, sizeSum_cons]
    | succ n =>
      simp [replaceIdx, sizeSum_cons, ih n]

/-! ### The conservation invariant that does hold -/

lemma conserved_init : conserved initHeap := by
  constructor
  · simp [initHeap, sizeSum, blockSpan, headerSize, heapCap]
  · simp [initHeap, heapCap, headerSize, M32]

lemma conserved_kmalloc {h : Heap} (hc : conserved h) (size : Nat) :
    conserved (kmalloc h size).1 := by
  unfold kmalloc
  split
  · exact hc
  · split
    · exact hc
    · rename_i hgo
      refine ⟨?_, ?_⟩
      · simpa [kmallocGo_sizeSum hgo] using hc.1
      · show (wadd h.used _ + wsub h.free _) % M32 = _
        rw [wadd_wsub_sum]
        exact hc.2

lemma conserved_kfree {h : Heap} (hc : conserved h) (i : Nat) :
    conserved (kfree h i) := by
  unfold kfree
  split
  · exact hc
  · rename_i b hb
    split
    · exact hc
    · refine ⟨?_, ?_⟩
      · show sizeSum (mergeAt _ _) = _
        rw [mergeAt_sizeSum, sizeSum_set_same hb]
        exact hc.1
      · show (wsub h.used _ + wadd h.free _) % M32 = _
        rw [wsub_wadd_sum]
        exact hc.2

lemma conserved_krealloc {h : Heap} (hc : conserved h) (i newSize : Nat) :
    conserved (krealloc h i newSize).1 := by
  unfold krealloc
  split
  · exact conserved_kfree hc i
  · split
    · exact hc
    · rename_i b hb
      split
      · exact ⟨by simpa [replaceIdx_sizeSum] using hc.1, hc.2⟩
      · split
        · exact hc
        · rename_i h1 info hm
          have h1c : conserved h1 := by
            have hall := conserved_kmalloc hc newSize
            rw [hm] at hall
            exact hall
          exact conserved_kfree h1c _

lemma conserved_reach {h : Heap} (hr : Reach h) : conserved h := by
  induction hr with
  | init => exact conserved_init
  | malloc size _ ih => exact conserved_kmalloc ih size
  | free i _ _ ih => exact conserved_kfree ih i
  | realloc i newSize _ _ ih => exact conserved_krealloc ih i newSize

/-! ### No-adjacent-free lemmas -/

lemma noAdj_cons {a : Block} {bs : List Block} (h : noAdjB (a :: bs) = true) :
    noAdjB bs = true := by
  cases bs with
  | nil => rfl
  | cons b rest =>
    unfold noAdjB at h
    simp only [Bool.and_eq_true] at h
    exact h.2

lemma noAdj_append_left : ∀ {xs ys : List Block},
    noAdjB (xs ++ ys) = true → noAdjB xs = true := by
  intro xs
  induction xs with
  | nil => intro ys _; rfl
  | cons a rest ih =>
    intro ys h
    cases rest with
    | nil => rfl
    | cons b rest2 =>
      simp only [List.cons_append] at h
      unfold noAdjB at h ⊢
      simp only [Bool.and_eq_true] at h ⊢
      exact ⟨h.1, ih h.2⟩

lemma noAdj_append_right : ∀ {xs ys : List Block},
    noAdjB (xs ++ ys) = true → noAdjB ys = true := by
  intro xs
  induction xs with
  | nil => intro ys h; exact h
  | cons a rest ih =>
    intro ys h
    exact ih (noAdj_cons (by simpa using h))

lemma noAdj_glue : ∀ {xs : List Block} (ys : List Block) (b : Block),
    noAdjB xs = true → noAdjB ys = true →
    (∀ l, xs.getLast? = some l → l.isFree = false) →
    (∀ hd, ys.head? = some hd → hd.isFree = false) →
    noAdjB (xs ++ b :: ys) = true := by
  intro xs
  induction xs with
  | nil =>
    intro ys b _ hys _ hhd
    cases ys with
    | nil => rfl
    | cons c rest =>
      have hc : c.isFree = false := hhd c rfl
      simp only [List.nil_append]
      unfold noAdjB
      simp only [Bool.and_eq_true]
      exact ⟨by simp [hc], hys⟩
  | cons a rest ih =>
    intro ys b hx hys hlast hhd
    cases rest with
    | nil =>
      have ha : a.isFree = false := hlast a rfl
      simp only [List.singleton_append]
      unfold noAdjB
      simp only [Bool.and_eq_true]
      refine ⟨by simp [ha], ?_⟩
      exact ih ys b rfl hys (by intro l hl; simp at hl) hhd
    | cons c rest2 =>
      simp only [List.cons_append]
      unfold noAdjB at hx ⊢
      simp only [Bool.and_eq_true] at hx ⊢
      refine ⟨hx.1, ?_⟩
      have hlast2 : ∀ l, (c :: rest2).getLast? = some l → l.isFree = false := by
        intro l hl
        exact hlast l (by rw [List.getLast?_cons_cons]; exact hl)
      exact ih ys b hx.2 hys hlast2 hhd

lemma dropWhile_head_not : ∀ {l : List Block} {a : Block},
    (l.dropWhile Block.isFree).head? = some a → a.isFree = false := by
  intro l
  induction l with
  | nil => intro a h; simp at h
  | cons b rest ih =>
    intro a h
    rw [List.dropWhile_cons] at h
    by_cases hb : b.isFree = true
    · rw [if_pos hb] at h
      exact ih h
    · rw [if_neg hb] at h
      simp only [List.head?_cons, Option.some_inj] at h
      subst h
      exact Bool.eq_false_iff.mpr hb

lemma noAdj_cons_of (a : Block) {bs : List Block} (h : noAdjB bs = true)
    (hhd : ∀ c, bs.head? = some c → a.isFree = false ∨ c.isFree = false) :
    noAdjB (a :: bs) = true := by
  cases bs with
  | nil => rfl
  | cons c rest =>
    unfold noAdjB
    simp only [Bool.and_eq_true]
    refine ⟨?_, h⟩
    rcases hhd c rfl with h1 | h1 <;> simp [h1]

lemma noAdj_edge {a c : Block} {rest : List Block}
    (h : noAdjB (a :: c :: rest) = true) :
    a.isFree = false ∨ c.isFree = false := by
  unfold noAdjB at h
  simp only [Bool.and_eq_true] at h
  have h1 := h.1
  cases ha : a.isFree <;> cases hc : c.isFree <;> simp_all

lemma kmallocGo_head {sz : Nat} : ∀ {bs : List Block} {out : GoOut},
    kmallocGo sz bs = some out →
    out.blocks.head? = bs.head?
      ∨ ∃ b2, out.blocks.head? = some b2 ∧ b2.isFree = false := by
  intro bs
  induction bs with
  | nil => intro out h; simp [kmallocGo] at h
  | cons b rest ih =>
    intro out h
    unfold kmallocGo at h
    split at h
    · split at h
      · cases h
        exact Or.inr ⟨_, rfl, rfl⟩
      · cases h
        exact Or.inr ⟨_, rfl, rfl⟩
    · split at h
      · exact absurd h (by simp)
      · rename_i out1 hrec
        cases h
        exact Or.inl rfl

lemma kmallocGo_noAdj {sz : Nat} : ∀ {bs : List Block} {out : GoOut},
    noAdjB bs = true → kmallocGo sz bs = some out → noAdjB out.blocks = true := by
  intro bs
  induction bs with
  | nil => intro out _ h; simp [kmallocGo] at h
  | cons b rest ih =>
    intro out hn h
    unfold kmallocGo at h
    split at h
    · rename_i hfit
      split at h
      · cases h
        refine noAdj_cons_of _ ?_ ?_
        · refine noAdj_cons_of _ (noAdj_cons hn) ?_
          intro c hc
          cases rest with
          | nil => simp at hc
          | cons c2 rest2 =>
            simp only [List.head?_cons, Option.some_inj] at hc
            subst hc
            rcases noAdj_edge hn with h1 | h1
            · rw [hfit.1] at h1; cases h1
            · exact Or.inr h1
        · intro c _
          exact Or.inl rfl
      · cases h
        refine noAdj_cons_of _ (noAdj_cons hn) ?_
        intro c _
        exact Or.inl rfl
    · split at h
      · exact absurd h (by simp)
      · rename_i out1 hrec
        cases h
        refine noAdj_cons_of _ (ih (noAdj_cons hn) hrec) ?_
        intro c hc
        rcases kmallocGo_head hrec with hh | ⟨b2, hb2, hb2f⟩
        · rw [hh] at hc
          cases rest with
          | nil => simp at hc
          | cons c2 rest2 =>
            simp only [List.head?_cons, Option.some_inj] at hc
            subst hc
            exact noAdj_edge hn
        · rw [hb2] at hc
          cases hc
          exact Or.inr hb2f

lemma kmalloc_noAdj {h : Heap} (hn : noAdjB h.blocks = true) (size : Nat) :
    noAdjB (kmalloc h size).1.blocks = true := by
  unfold kmalloc
  split
  · exact hn
  · split
    · exact hn
    · rename_i hgo
      exact kmallocGo_noAdj hn hgo

lemma getLast?_reverse_blk (l : List Block) : l.reverse.getLast? = l.head? := by
  induction l with
  | nil => rfl
  | cons a rest ih =>
    simp [List.getLast?_append]

lemma kfree_noAdj {h : Heap} (hn : noAdjB h.blocks = true) (i : Nat) :
    noAdjB (kfree h i).blocks = true := by
  unfold kfree
  split
  · exact hn
  · rename_i b hb
    split
    · exact hn
    · show noAdjB (mergeAt (h.blocks.set i ⟨b.size, true⟩) i) = true
      unfold mergeAt
      rw [get?_set_self hb, take_set, drop_set]
      dsimp only
      have hdec := list_decomp hb
      have hpre : noAdjB (h.blocks.take i) = true := by
        refine @noAdj_append_left (h.blocks.take i) (b :: h.blocks.drop (i + 1)) ?_
        rw [← hdec]; exact hn
      have hmid : noAdjB (b :: h.blocks.drop (i + 1)) = true := by
        refine @noAdj_append_right (h.blocks.take i) (b :: h.blocks.drop (i + 1)) ?_
        rw [← hdec]; exact hn
      have hsuf := noAdj_cons hmid
      refine noAdj_glue _ _ ?_ ?_ ?_ ?_
      · refine @noAdj_append_left ((h.blocks.take i).reverse.dropWhile Block.isFree).reverse
          ((h.blocks.take i).reverse.takeWhile Block.isFree).reverse ?_
        rw [keep_run_eq]
        exact hpre
      · refine @noAdj_append_right ((h.blocks.drop (i + 1)).takeWhile Block.isFree)
          ((h.blocks.drop (i + 1)).dropWhile Block.isFree) ?_
        rw [List.takeWhile_append_dropWhile]
        exact hsuf
      · intro l hl
        rw [getLast?_reverse_blk] at hl
        exact dropWhile_head_not hl
      · intro hd hhd
        exact dropWhile_head_not hhd

lemma noAdj_reachMF {h : Heap} (hr : ReachMF h) : noAdjB h.blocks = true := by
  induction hr with
  | init => rfl
  | malloc size _ ih => exact kmalloc_noAdj ih size
  | free i _ _ ih => exact kfree_noAdj ih i

lemma kmallocGo_spec {sz : Nat} : ∀ {bs : List Block} {out : GoOut},
    kmallocGo sz bs = some out →
    ∃ b, bs.get? out.idx = some b ∧ b.isFree = true ∧ sz ≤ b.size ∧
      (∀ j c, j < out.idx → bs.get? j = some c → c.isFree = false ∨ c.size < sz) ∧
      (out.didSplit = true ↔ sz + headerSize + 32 < b.size) ∧
      out.blocks = bs.take out.idx
        ++ (if sz + headerSize + 32 < b.size then
              [⟨sz, false⟩, ⟨b.size - sz - headerSize, true⟩]
            else [(⟨b.size, false⟩ : Block)])
        ++ bs.drop (out.idx + 1) ∧
      out.allocSize = if sz + headerSize + 32 < b.size then sz else b.size := by
  intro bs
  induction bs with
  | nil => intro out h; simp [kmallocGo] at h
  | cons b rest ih =>
    intro out h
    unfold kmallocGo at h
    split at h
    · rename_i hfit
      split at h
      · rename_i hsplit
        cases h
        refine ⟨b, rfl, hfit.1, hfit.2, ?_, ?_, ?_, ?_⟩
        · intro j c hj _
          dsimp only at hj
          omega
        · simp [hsplit]
        · simp [hsplit]
        · simp [hsplit]
      · rename_i hsplit
        cases h
        refine ⟨b, rfl, hfit.1, hfit.2, ?_, ?_, ?_, ?_⟩
        · intro j c hj _
          dsimp only at hj
          omega
        · simp [hsplit]
        · simp [hsplit]
        · simp [hsplit]
    · rename_i hfit
      split at h
      · exact absurd h (by simp)
      · rename_i out1 hrec
        cases h
        obtain ⟨b1, hget, hfree, hsz, hleast, hiff, hblocks, hasz⟩ := ih hrec
        refine ⟨b1, hget, hfree, hsz, ?_, hiff, ?_, hasz⟩
        · intro j c hj hc
          dsimp only at hj
          cases j with
          | zero =>
            simp only [List.get?] at hc
            cases hc
            by_cases hbf : b.isFree = true
            · right
              by_cases hbs : sz ≤ b.size
              · exact absurd ⟨hbf, hbs⟩ hfit
              · omega
            · exact Or.inl (Bool.eq_false_iff.mpr hbf)
          | succ j2 =>
            exact hleast j2 c (by omega) hc
        · simp only [List.take_succ_cons, List.drop_succ_cons, List.cons_append]
          rw [hblocks]

lemma get?_set_ne {α : Type _} : ∀ (bs : List α) {i j : Nat}, i ≠ j →
    ∀ x, (bs.set i x).get? j = bs.get? j := by
  intro bs
  induction bs with
  | nil => intro i j _ x; simp
  | cons a rest ih =>
    intro i j hij x
    cases i with
    | zero =>
      cases j with
      | zero => exact absurd rfl hij
      | succ m => simp
    | succ n =>
      cases j with
      | zero => simp
      | succ m =>
        simp only [List.set_cons_succ, List.get?]
        exact ih (by omega) x

lemma get?_set_self2 {α : Type _} : ∀ {bs : List α} {i : Nat} {b : α},
    bs.get? i = some b → ∀ x, (bs.set i x).get? i = some x := by
  intro bs
  induction bs with
  | nil => intro i b h; simp at h
  | cons a rest ih =>
    intro i b h x
    cases i with
    | zero => simp
    | succ n =>
      simp only [List.get?] at h
      simp only [List.set_cons_succ, List.get?]
      exact ih h x

lemma set_self_of_get {α : Type _} : ∀ {bs : List α} {i : Nat} {b : α},
    bs.get? i = some b → bs.set i b = bs := by
  intro bs
  induction bs with
  | nil => intro i b h; simp at h
  | cons a rest ih =>
    intro i b h
    cases i with
    | zero =>
      simp only [List.get?, Option.some_inj] at h
      simp [h]
    | succ n =>
      simp only [List.get?] at h
      simp [ih h]

lemma switchTo_tasks_ne {s : Sched} {i c : Nat} (h : i ≠ c) :
    (switchTo s i).tasks.get? c = s.tasks.get? c := by
  unfold switchTo
  split
  · exact get?_set_ne _ h _
  · rfl

lemma switchTo_queue (s : Sched) (i : Nat) : (switchTo s i).queue = s.queue := by
  unfold switchTo
  split <;> rfl

lemma switchTo_current (s : Sched) (i : Nat) :
    (switchTo s i).current = some i := by
  unfold switchTo
  split <;> rfl

lemma switchTo_ticks (s : Sched) (i : Nat) : (switchTo s i).ticks = s.ticks := by
  unfold switchTo
  split <;> rfl

lemma schedule_pres {s : Sched} {c : Nat} (hq : c ∉ s.queue)
    (hc : s.current ≠ some c) :
    (schedule s).tasks.get? c = s.tasks.get? c
    ∧ (schedule s).current ≠ some c
    ∧ c ∉ (schedule s).queue
    ∧ (schedule s).ticks = s.ticks := by
  unfold schedule
  cases hqq : s.queue with
  | nil =>
    refine ⟨rfl, hc, ?_, rfl⟩
    show c ∉ s.queue
    exact hq
  | cons next rest =>
    rw [hqq] at hq
    have hnext : next ≠ c := fun he => hq (he ▸ List.mem_cons_self next rest)
    have hcr : c ∉ rest := fun hm => hq (List.mem_cons_of_mem _ hm)
    dsimp only
    cases hcc : s.current with
    | none =>
      refine ⟨switchTo_tasks_ne hnext, ?_, ?_, switchTo_ticks _ _⟩
      · rw [switchTo_current]
        simp [hnext]
      · rw [switchTo_queue]
        exact hcr
    | some cc =>
      dsimp only
      have hccne : cc ≠ c := fun he => hc (by rw [hcc, he])
      cases hgc : s.tasks.get? cc with
      | none =>
        refine ⟨switchTo_tasks_ne hnext, ?_, ?_, switchTo_ticks _ _⟩
        · rw [switchTo_current]
          simp [hnext]
        · rw [switchTo_queue]
          exact hcr
      | some tk =>
        dsimp only
        by_cases hrun : tk.state = TState.running
        · rw [if_pos hrun]
          refine ⟨?_, ?_, ?_, switchTo_ticks _ _⟩
          · rw [switchTo_tasks_ne hnext]
            exact get?_set_ne _ hccne _
          · rw [switchTo_current]
            simp [hnext]
          · rw [switchTo_queue]
            simp only [List.mem_append, List.mem_singleton]
            rintro (h1 | h1)
            · exact hcr h1
            · exact hccne h1.symm
        · rw [if_neg hrun]
          refine ⟨switchTo_tasks_ne hnext, ?_, ?_, switchTo_ticks _ _⟩
          · rw [switchTo_current]
            simp [hnext]
          · rw [switchTo_queue]
            exact hcr

lemma schedule_nonrunning_start {s : Sched} {c : Nat} {tk : Task}
    (hcur : s.current = some c) (hget : s.tasks.get? c = some tk)
    (hst : tk.state ≠ TState.running) (hq : c ∉ s.queue)
    (hqne : s.queue ≠ []) :
    (schedule s).tasks.get? c = some tk ∧ (schedule s).current ≠ some c
    ∧ c ∉ (schedule s).queue ∧ (schedule s).ticks = s.ticks := by
  unfold schedule
  cases hqq : s.queue with
  | nil => exact absurd hqq hqne
  | cons next rest =>
    rw [hqq] at hq
    have hnext : next ≠ c := fun he => hq (he ▸ List.mem_cons_self next rest)
    have hcr : c ∉ rest := fun hm => hq (List.mem_cons_of_mem _ hm)
    dsimp only
    rw [hcur]
    dsimp only
    rw [hget]
    dsimp only
    rw [if_neg hst]
    refine ⟨?_, ?_, ?_, switchTo_ticks _ _⟩
    · rw [switchTo_tasks_ne hnext]
      exact hget
    · rw [switchTo_current]
      simp [hnext]
    · rw [switchTo_queue]
      exact hcr

lemma schedule_ready_state {s : Sched} {c : Nat} {tk : Task}
    (hget : s.tasks.get? c = some tk) (hst : tk.state = TState.ready)
    (hc : s.current ≠ some c) :
    ∃ tk2, (schedule s).tasks.get? c = some tk2
      ∧ (tk2.state = TState.ready ∨ tk2.state = TState.running) := by
  unfold schedule
  cases hqq : s.queue with
  | nil => exact ⟨tk, hget, Or.inl hst⟩
  | cons next rest =>
    dsimp only
    by_cases hnc : next = c
    · subst hnc
      cases hcc : s.current with
      | none =>
        refine ⟨{ tk with state := TState.running, timeRemaining := tk.timeSlice },
          ?_, Or.inr rfl⟩
        unfold switchTo
        dsimp only
        rw [hget]
        exact get?_set_self2 hget _
      | some cc =>
        dsimp only
        have hccne : cc ≠ next := fun he => hc (by rw [hcc, he])
        cases hgc : s.tasks.get? cc with
        | none =>
          refine ⟨{ tk with state := TState.running, timeRemaining := tk.timeSlice },
            ?_, Or.inr rfl⟩
          unfold switchTo
          dsimp only
          rw [hget]
          exact get?_set_self2 hget _
        | some tkc =>
          dsimp only
          by_cases hrun : tkc.state = TState.running
          · rw [if_pos hrun]
            have hget2 : (s.tasks.set cc { tkc with state := TState.ready, timeRemaining := tkc.timeSlice }).get? next = some tk := by
              rw [get?_set_ne _ hccne]
              exact hget
            refine ⟨{ tk with state := TState.running, timeRemaining := tk.timeSlice },
              ?_, Or.inr rfl⟩
            unfold switchTo
            dsimp only
            rw [hget2]
            exact get?_set_self2 hget2 _
          · rw [if_neg hrun]
            refine ⟨{ tk with state := TState.running, timeRemaining := tk.timeSlice },
              ?_, Or.inr rfl⟩
            unfold switchTo
            dsimp only
            rw [hget]
            exact get?_set_self2 hget _
    · cases hcc : s.current with
      | none => exact ⟨tk, by rw [switchTo_tasks_ne hnc]; exact hget, Or.inl hst⟩
      | some cc =>
        dsimp only
        have hccne : cc ≠ c := fun he => hc (by rw [hcc, he])
        cases hgc : s.tasks.get? cc with
        | none => exact ⟨tk, by rw [switchTo_tasks_ne hnc]; exact hget, Or.inl hst⟩
        | some tkc =>
          dsimp only
          by_cases hrun : tkc.state = TState.running
          · rw [if_pos hrun]
            refine ⟨tk, ?_, Or.inl hst⟩
            rw [switchTo_tasks_ne hnc]
            rw [get?_set_ne _ hccne]
            exact hget
          · rw [if_neg hrun]
            exact ⟨tk, by rw [switchTo_tasks_ne hnc]; exact hget, Or.inl hst⟩

lemma findTermSlot_spec : ∀ {l : List Task} {i : Nat},
    findTermSlot l = some i →
    ∃ tk, l.get? i = some tk ∧ tk.state = TState.terminated := by
  intro l
  induction l with
  | nil => intro i h; simp [findTermSlot] at h
  | cons tk rest ih =>
    intro i h
    unfold findTermSlot at h
    split at h
    · rename_i hterm
      cases h
      exact ⟨tk, rfl, hterm⟩
    · split at h
      · exact absurd h (by simp)
      · rename_i j hj
        cases h
        obtain ⟨tk2, hg, hst⟩ := ih hj
        exact ⟨tk2, hg, hst⟩

lemma wakeGo_queue_mono : ∀ (L : List Nat) (s : Sched) (x : Nat),
    x ∈ s.queue → x ∈ (wakeGo s L).queue := by
  intro L
  induction L with
  | nil => intro s x hx; exact hx
  | cons i is2 ih =>
    intro s x hx
    unfold wakeGo
    cases hgi : s.tasks.get? i with
    | none => exact ih s x hx
    | some tk =>
      dsimp only
      by_cases hcnd : tk.state = TState.sleeping ∧ tk.sleepUntil ≤ s.ticks
      · rw [if_pos hcnd]
        exact ih _ x (by simp [hx])
      · rw [if_neg hcnd]
        exact ih s x hx

lemma wakeGo_pres {c : Nat} : ∀ (L : List Nat) (s : Sched),
    (∀ tk, s.tasks.get? c = some tk →
      ¬(tk.state = TState.sleeping ∧ tk.sleepUntil ≤ s.ticks)) →
    (wakeGo s L).tasks.get? c = s.tasks.get? c
    ∧ (c ∉ s.queue → c ∉ (wakeGo s L).queue)
    ∧ (wakeGo s L).current = s.current
    ∧ (wakeGo s L).ticks = s.ticks := by
  intro L
  induction L with
  | nil => intro s _; exact ⟨rfl, fun h => h, rfl, rfl⟩
  | cons i is2 ih =>
    intro s hcond
    unfold wakeGo
    cases hgi : s.tasks.get? i with
    | none => exact ih s hcond
    | some tk =>
      dsimp only
      by_cases hcnd : tk.state = TState.sleeping ∧ tk.sleepUntil ≤ s.ticks
      · rw [if_pos hcnd]
        have hic : i ≠ c := by
          intro he
          subst he
          exact hcond tk hgi hcnd
        obtain ⟨h1, h2, h3, h4⟩ := ih
          { s with tasks := s.tasks.set i { tk with state := TState.ready }
                   queue := s.queue ++ [i] }
          (by
            intro tk2 hg2
            have hg2b : (s.tasks.set i { tk with state := TState.ready }).get? c
                = some tk2 := hg2
            rw [get?_set_ne _ hic] at hg2b
            exact hcond tk2 hg2b)
        refine ⟨?_, ?_, h3, h4⟩
        · rw [h1]
          exact get?_set_ne _ hic _
        · intro hcq
          refine h2 ?_
          simp only [List.mem_append, List.mem_singleton]
          rintro (hm | hm)
          · exact hcq hm
          · exact hic hm.symm
      · rw [if_neg hcnd]
        exact ih s hcond

lemma wakeGo_wakes {c : Nat} : ∀ (L : List Nat) (s : Sched) (tk : Task),
    c ∈ L → s.tasks.get? c = some tk → tk.state = TState.sleeping →
    tk.sleepUntil ≤ s.ticks →
    (wakeGo s L).tasks.get? c = some { tk with state := TState.ready }
    ∧ c ∈ (wakeGo s L).queue := by
  intro L
  induction L with
  | nil => intro s tk hmem; simp at hmem
  | cons i is2 ih =>
    intro s tk hmem hget hsl hle
    unfold wakeGo
    by_cases hic : i = c
    · subst hic
      rw [hget]
      dsimp only
      rw [if_pos ⟨hsl, hle⟩]
      have hget2 : (s.tasks.set i { tk with state := TState.ready }).get? i
          = some { tk with state := TState.ready } := get?_set_self2 hget _
      obtain ⟨h1, h2, h3, h4⟩ := wakeGo_pres is2
        { s with tasks := s.tasks.set i { tk with state := TState.ready }
                 queue := s.queue ++ [i] }
        (by
          intro tk2 hg2
          have hg2b : (s.tasks.set i { tk with state := TState.ready }).get? i
              = some tk2 := hg2
          rw [hget2] at hg2b
          cases hg2b
          intro hcontra
          exact absurd hcontra.1 (by simp))
      refine ⟨by rw [h1]; exact hget2, ?_⟩
      refine wakeGo_queue_mono is2 _ i ?_
      simp
    · have hmem2 : c ∈ is2 := by
        cases hmem with
        | head => exact absurd rfl hic
        | tail _ h => exact h
      cases hgi : s.tasks.get? i with
      | none => exact ih s tk hmem2 hget hsl hle
      | some tki =>
        dsimp only
        by_cases hcnd : tki.state = TState.sleeping ∧ tki.sleepUntil ≤ s.ticks
        · rw [if_pos hcnd]
          refine ih _ tk hmem2 ?_ hsl hle
          show (s.tasks.set i { tki with state := TState.ready }).get? c = some tk
          rw [get?_set_ne _ hic]
          exact hget
        · rw [if_neg hcnd]
          exact ih s tk hmem2 hget hsl hle

lemma wakeGo_tc : ∀ (L : List Nat) (s : Sched),
    (wakeGo s L).ticks = s.ticks ∧ (wakeGo s L).current = s.current := by
  intro L
  induction L with
  | nil => intro s; exact ⟨rfl, rfl⟩
  | cons i is2 ih =>
    intro s
    unfold wakeGo
    cases hgi : s.tasks.get? i with
    | none => exact ih s
    | some tk =>
      dsimp only
      by_cases hcnd : tk.state = TState.sleeping ∧ tk.sleepUntil ≤ s.ticks
      · rw [if_pos hcnd]
        exact ih _
      · rw [if_neg hcnd]
        exact ih s

lemma schedule_ticks (s : Sched) : (schedule s).ticks = s.ticks := by
  unfold schedule
  split
  · rfl
  · rw [switchTo_ticks]
    split
    · split
      · split <;> rfl
      · rfl
    · rfl

lemma step_ticks_nontick {s : Sched} {op : SOp} (h : op ≠ SOp.tick) :
    (step s op).ticks = s.ticks := by
  cases op with
  | tick => exact absurd rfl h
  | create =>
    show (taskCreate s).1.ticks = s.ticks
    unfold taskCreate
    split <;> rfl
  | yield => exact schedule_ticks s
  | sleep k =>
    show (taskSleep s k).ticks = s.ticks
    unfold taskSleep
    split
    · split
      · exact schedule_ticks _
      · rfl
    · rfl
  | exit =>
    show (taskExit s).ticks = s.ticks
    unfold taskExit
    split
    · split
      · exact schedule_ticks _
      · exact schedule_ticks _
    · rfl

lemma schedulerTick_ticks (s : Sched) :
    (schedulerTick s).ticks = (s.ticks + 1) % M32 := by
  unfold schedulerTick
  have ht := (wakeGo_tc (List.range MAX_TASKS)
    { s with ticks := (s.ticks + 1) % M32 }).1
  dsimp only
  split
  · split
    · split
      · split
        · rw [schedule_ticks]
          exact ht
        · exact ht
      · exact ht
    · exact ht
  · exact ht

lemma step_shielded {c : Nat} {P : Task → Prop} {s : Sched} (op : SOp)
    (hs : Shielded c P s)
    (hwake : op = SOp.tick → ∀ tk, P tk →
      ¬(tk.state = TState.sleeping ∧ tk.sleepUntil ≤ (s.ticks + 1) % M32))
    (hterm : op = SOp.create → ∀ tk, P tk → tk.state ≠ TState.terminated) :
    Shielded c P (step s op) := by
  obtain ⟨⟨tk0, hget0, hP0⟩, hq0, hc0⟩ := hs
  cases op with
  | create =>
    show Shielded c P (taskCreate s).1
    unfold taskCreate
    cases hf : findTermSlot s.tasks with
    | none => exact ⟨⟨tk0, hget0, hP0⟩, hq0, hc0⟩
    | some i =>
      have hic : i ≠ c := by
        intro he
        subst he
        obtain ⟨tki, hgi, hsti⟩ := findTermSlot_spec hf
        rw [hget0] at hgi
        cases hgi
        exact hterm rfl tk0 hP0 hsti
      refine ⟨⟨tk0, ?_, hP0⟩, ?_, hc0⟩
      · exact (get?_set_ne _ hic _).trans hget0
      · simp only [List.mem_append, List.mem_singleton]
        rintro (hm | hm)
        · exact hq0 hm
        · exact hic hm.symm
  | tick =>
    show Shielded c P (schedulerTick s)
    unfold schedulerTick
    dsimp only
    obtain ⟨hw1, hw2, hw3, hw4⟩ := wakeGo_pres (List.range MAX_TASKS)
      { s with ticks := (s.ticks + 1) % M32 }
      (by
        intro tk hg
        have hgb : s.tasks.get? c = some tk := hg
        rw [hget0] at hgb
        cases hgb
        exact hwake rfl tk0 hP0)
    revert hw1 hw2 hw3 hw4
    generalize wakeGo { s with ticks := (s.ticks + 1) % M32 } (List.range MAX_TASKS) = W
    intro hw1 hw2 hw3 hw4
    have hw1s : W.tasks.get? c = some tk0 := by rw [hw1]; exact hget0
    have hw2s : c ∉ W.queue := hw2 hq0
    have hw3s : W.current = s.current := hw3
    have hWc : W.current ≠ some c := by rw [hw3s]; exact hc0
    cases hcc2 : W.current with
    | none => exact ⟨⟨tk0, hw1s, hP0⟩, hw2s, hWc⟩
    | some cur =>
      have hcurne : cur ≠ c := by
        intro he
        rw [hcc2, he] at hWc
        exact hWc rfl
      dsimp only
      split
      · cases hg2 : W.tasks.get? cur with
        | none => exact ⟨⟨tk0, hw1s, hP0⟩, hw2s, hWc⟩
        | some tkc =>
          dsimp only
          have hs3 : Shielded c P (Sched.mk
              (W.tasks.set cur { tkc with timeRemaining := wsub tkc.timeRemaining 1 })
              W.queue (some cur) W.ticks W.nextId W.trace) := by
            refine ⟨⟨tk0, ?_, hP0⟩, hw2s, by simp [hcurne]⟩
            show (W.tasks.set cur _).get? c = some tk0
            rw [get?_set_ne _ hcurne]
            exact hw1s
          obtain ⟨⟨tk3, hg3, hP3⟩, hq3, hc3⟩ := hs3
          split
          · obtain ⟨p1, p2, p3, _⟩ := schedule_pres hq3 hc3
            exact ⟨⟨tk3, by rw [p1]; exact hg3, hP3⟩, p3, p2⟩
          · exact ⟨⟨tk3, hg3, hP3⟩, hq3, hc3⟩
      · exact ⟨⟨tk0, hw1s, hP0⟩, hw2s, hWc⟩
  | yield =>
    show Shielded c P (schedule s)
    obtain ⟨p1, p2, p3, _⟩ := schedule_pres hq0 hc0
    exact ⟨⟨tk0, by rw [p1]; exact hget0, hP0⟩, p3, p2⟩
  | sleep k =>
    show Shielded c P (taskSleep s k)
    unfold taskSleep
    cases hcc : s.current with
    | none => exact ⟨⟨tk0, hget0, hP0⟩, hq0, hc0⟩
    | some cur =>
      dsimp only
      have hcurne : cur ≠ c := fun he => hc0 (by rw [hcc, he])
      cases hg2 : s.tasks.get? cur with
      | none => exact ⟨⟨tk0, hget0, hP0⟩, hq0, hc0⟩
      | some tkc =>
        dsimp only
        have hs3 : Shielded c P (Sched.mk
            (s.tasks.set cur { tkc with state := TState.sleeping, sleepUntil := wadd s.ticks k })
            s.queue (some cur) s.ticks s.nextId s.trace) := by
          refine ⟨⟨tk0, ?_, hP0⟩, hq0, by simp [hcurne]⟩
          show (s.tasks.set cur _).get? c = some tk0
          rw [get?_set_ne _ hcurne]
          exact hget0
        obtain ⟨⟨tk3, hg3, hP3⟩, hq3, hc3⟩ := hs3
        obtain ⟨p1, p2, p3, _⟩ := schedule_pres hq3 hc3
        exact ⟨⟨tk3, by rw [p1]; exact hg3, hP3⟩, p3, p2⟩
  | exit =>
    show Shielded c P (taskExit s)
    unfold taskExit
    cases hcc : s.current with
    | none => exact ⟨⟨tk0, hget0, hP0⟩, hq0, hc0⟩
    | some cur =>
      dsimp only
      have hcurne : cur ≠ c := fun he => hc0 (by rw [hcc, he])
      cases hg2 : s.tasks.get? cur with
      | none =>
        dsimp only
        have hs3 : Shielded c P { s with current := none } :=
          ⟨⟨tk0, hget0, hP0⟩, hq0, by simp⟩
        obtain ⟨⟨tk3, hg3, hP3⟩, hq3, hc3⟩ := hs3
        obtain ⟨p1, p2, p3, _⟩ := schedule_pres hq3 hc3
        exact ⟨⟨tk3, by rw [p1]; exact hg3, hP3⟩, p3, p2⟩
      | some tkc =>
        dsimp only
        have hs3 : Shielded c P
            { s with tasks := s.tasks.set cur { tkc with state := TState.terminated }
                     current := none } := by
          refine ⟨⟨tk0, ?_, hP0⟩, hq0, by simp⟩
          show (s.tasks.set cur _).get? c = some tk0
          rw [get?_set_ne _ hcurne]
          exact hget0
        obtain ⟨⟨tk3, hg3, hP3⟩, hq3, hc3⟩ := hs3
        obtain ⟨p1, p2, p3, _⟩ := schedule_pres hq3 hc3
        exact ⟨⟨tk3, by rw [p1]; exact hg3, hP3⟩, p3, p2⟩

lemma countTicks_cons (op : SOp) (l : List SOp) :
    countTicks (op :: l) = countTicks l + (if op = SOp.tick then 1 else 0) := by
  cases op <;> simp [countTicks]

lemma shielded_run_nocreate {c : Nat} {P : Task → Prop}
    (hns : ∀ tk, P tk → tk.state ≠ TState.sleeping) :
    ∀ (l : List SOp) (s : Sched), Shielded c P s → SOp.create ∉ l →
    Shielded c P (stepList s l) := by
  intro l
  induction l with
  | nil => intro s hs _; exact hs
  | cons op l2 ih =>
    intro s hs hnc
    have h1 : Shielded c P (step s op) := by
      refine step_shielded op hs ?_ ?_
      · intro _ tk hP hcon
        exact hns tk hP hcon.1
      · intro hcr
        exact absurd (hcr ▸ List.mem_cons_self op l2) hnc
    exact ih (step s op) h1 (fun hm => hnc (List.mem_cons_of_mem _ hm))

lemma shielded_sleep_run {c w : Nat} (hwM : w < M32) :
    ∀ (l : List SOp) (s : Sched),
    Shielded c (fun tk => tk.state = TState.sleeping ∧ tk.sleepUntil = w) s →
    s.ticks + countTicks l < w →
    Shielded c (fun tk => tk.state = TState.sleeping ∧ tk.sleepUntil = w) (stepList s l)
    ∧ (stepList s l).ticks = s.ticks + countTicks l := by
  intro l
  induction l with
  | nil => intro s hs _; exact ⟨hs, rfl⟩
  | cons op l2 ih =>
    intro s hs hbound
    by_cases hop : op = SOp.tick
    · subst hop
      have hbound2 : s.ticks + (countTicks l2 + 1) < w := hbound
      have hmod : (s.ticks + 1) % M32 = s.ticks + 1 :=
        Nat.mod_eq_of_lt (by omega)
      have h1 : Shielded c (fun tk => tk.state = TState.sleeping ∧ tk.sleepUntil = w)
          (step s SOp.tick) := by
        refine step_shielded SOp.tick hs ?_ ?_
        · intro _ tk hP hcon
          rw [hP.2, hmod] at hcon
          omega
        · intro hcr
          cases hcr
      have hticks : (step s SOp.tick).ticks = s.ticks + 1 := by
        show (schedulerTick s).ticks = s.ticks + 1
        rw [schedulerTick_ticks, hmod]
      obtain ⟨h2, h3⟩ := ih (step s SOp.tick) h1 (by rw [hticks]; omega)
      refine ⟨h2, ?_⟩
      show (stepList (step s SOp.tick) l2).ticks = s.ticks + (countTicks l2 + 1)
      rw [h3, hticks]
      omega
    · rw [countTicks_cons, if_neg hop] at hbound
      have h1 : Shielded c (fun tk => tk.state = TState.sleeping ∧ tk.sleepUntil = w)
          (step s op) := by
        refine step_shielded op hs ?_ ?_
        · intro hcr
          exact absurd hcr hop
        · intro _ tk hP
          rw [hP.1]
          simp
      have hticks : (step s op).ticks = s.ticks := step_ticks_nontick hop
      obtain ⟨h2, h3⟩ := ih (step s op) h1 (by rw [hticks]; omega)
      refine ⟨h2, ?_⟩
      show (stepList (step s op) l2).ticks = s.ticks + countTicks (op :: l2)
      rw [countTicks_cons, if_neg hop]
      rw [h3, hticks]
      omega

lemma tick_wakes {c w : Nat} {T : Sched} {tk2 : Task}
    (hget : T.tasks.get? c = some tk2) (hsl : tk2.state = TState.sleeping)
    (hsu : tk2.sleepUntil = w) (hcur : T.current ≠ some c) (hc8 : c < MAX_TASKS)
    (hT : T.ticks + 1 < M32) (hw : w ≤ T.ticks + 1) :
    ∃ tk3, (schedulerTick T).tasks.get? c = some tk3
      ∧ (tk3.state = TState.ready ∨ tk3.state = TState.running) := by
  unfold schedulerTick
  dsimp only
  have hmod : (T.ticks + 1) % M32 = T.ticks + 1 := Nat.mod_eq_of_lt hT
  obtain ⟨hwk1, hwk2⟩ := wakeGo_wakes (List.range MAX_TASKS)
    { T with ticks := (T.ticks + 1) % M32 } tk2
    (List.mem_range.mpr hc8) hget hsl
    (by show tk2.sleepUntil ≤ (T.ticks + 1) % M32; rw [hsu, hmod]; exact hw)
  have hcur2 : (wakeGo { T with ticks := (T.ticks + 1) % M32 }
      (List.range MAX_TASKS)).current = T.current :=
    (wakeGo_tc _ _).2
  revert hwk1 hwk2 hcur2
  generalize wakeGo { T with ticks := (T.ticks + 1) % M32 } (List.range MAX_TASKS) = W
  intro hwk1 hwk2 hcur2
  have hWc : W.current ≠ some c := by rw [hcur2]; exact hcur
  cases hcc2 : W.current with
  | none => exact ⟨_, hwk1, Or.inl rfl⟩
  | some cur =>
    have hcurne : cur ≠ c := by
      intro he
      rw [hcc2, he] at hWc
      exact hWc rfl
    dsimp only
    split
    · cases hg2 : W.tasks.get? cur with
      | none => exact ⟨_, hwk1, Or.inl rfl⟩
      | some tkc =>
        dsimp only
        have hg3 : (Sched.mk
            (W.tasks.set cur { tkc with timeRemaining := wsub tkc.timeRemaining 1 })
            W.queue (some cur) W.ticks W.nextId W.trace).tasks.get? c
            = some { tk2 with state := TState.ready } := by
          show (W.tasks.set cur _).get? c = _
          rw [get?_set_ne _ hcurne]
          exact hwk1
        split
        · exact schedule_ready_state hg3 rfl (by simp [hcurne])
        · exact ⟨_, hg3, Or.inl rfl⟩
    · exact ⟨_, hwk1, Or.inl rfl⟩

lemma wakeGo_noSleep : ∀ (L : List Nat) (s : Sched),
    (∀ tk ∈ s.tasks, tk.state ≠ TState.sleeping) → wakeGo s L = s := by
  intro L
  induction L with
  | nil => intro s _; rfl
  | cons i is2 ih =>
    intro s hns
    unfold wakeGo
    cases hgi : s.tasks.get? i with
    | none => exact ih s hns
    | some tk =>
      dsimp only
      rw [if_neg (fun hcon => hns tk (List.get?_mem hgi) hcon.1)]
      exact ih s hns

lemma wsub_one {m : Nat} (h1 : 1 ≤ m) (h2 : m < M32) : wsub m 1 = m - 1 := by
  simp only [wsub, M32] at *
  omega

lemma tick_run {s : Sched} {c : Nat} {tk : Task}
    (hcur : s.current = some c) (hget : s.tasks.get? c = some tk)
    (hns : ∀ tk2 ∈ s.tasks, tk2.state ≠ TState.sleeping)
    (h100 : 100 ≤ s.ticks) (hov : s.ticks + 1 < M32)
    (hm2 : 2 ≤ tk.timeRemaining) (hmM : tk.timeRemaining < M32) :
    schedulerTick s = { s with ticks := s.ticks + 1, tasks := s.tasks.set c { tk with timeRemaining := tk.timeRemaining - 1 } } := by
  unfold schedulerTick
  dsimp only
  have hmod : (s.ticks + 1) % M32 = s.ticks + 1 := Nat.mod_eq_of_lt hov
  rw [hmod]
  rw [wakeGo_noSleep (List.range MAX_TASKS) { s with ticks := s.ticks + 1 } hns]
  dsimp only
  rw [hcur]
  dsimp only
  rw [if_pos (show 100 < s.ticks + 1 by omega)]
  rw [hget]
  dsimp only
  rw [wsub_one (by omega) hmM]
  rw [if_neg (show ¬(tk.timeRemaining - 1 = 0) by omega)]

lemma tick_exhaust {s : Sched} {c : Nat} {tk : Task}
    (hcur : s.current = some c) (hget : s.tasks.get? c = some tk)
    (hns : ∀ tk2 ∈ s.tasks, tk2.state ≠ TState.sleeping)
    (h100 : 100 ≤ s.ticks) (hov : s.ticks + 1 < M32)
    (hm : tk.timeRemaining = 1) :
    schedulerTick s = schedule { s with ticks := s.ticks + 1, tasks := s.tasks.set c { tk with timeRemaining := 0 } } := by
  unfold schedulerTick
  dsimp only
  have hmod : (s.ticks + 1) % M32 = s.ticks + 1 := Nat.mod_eq_of_lt hov
  rw [hmod]
  rw [wakeGo_noSleep (List.range MAX_TASKS) { s with ticks := s.ticks + 1 } hns]
  dsimp only
  rw [hcur]
  dsimp only
  rw [if_pos (show 100 < s.ticks + 1 by omega)]
  rw [hget]
  dsimp only
  rw [hm, wsub_one (by omega) (by simp [M32])]
  rw [if_pos rfl]

lemma tickN_add : ∀ (a b : Nat) (s : Sched),
    tickN (a + b) s = tickN b (tickN a s) := by
  intro a
  induction a with
  | zero => intro b s; rw [Nat.zero_add]; rfl
  | succ n ih =>
    intro b s
    rw [Nat.succ_add]
    exact ih b (schedulerTick s)

lemma tickN_run {c : Nat} : ∀ (n : Nat) (s : Sched) (tk : Task),
    s.current = some c → s.tasks.get? c = some tk →
    (∀ tk2 ∈ s.tasks, tk2.state ≠ TState.sleeping) →
    100 ≤ s.ticks → s.ticks + n < M32 → tk.timeRemaining < M32 →
    n + 1 ≤ tk.timeRemaining →
    tickN n s = { s with ticks := s.ticks + n, tasks := s.tasks.set c { tk with timeRemaining := tk.timeRemaining - n } } := by
  intro n
  induction n with
  | zero =>
    intro s tk hcur hget hns h100 hov hM hrem
    show s = _
    have hset : s.tasks.set c { tk with timeRemaining := tk.timeRemaining - 0 }
        = s.tasks := set_self_of_get hget
    rw [hset]
    rfl
  | succ n ih =>
    intro s tk hcur hget hns h100 hov hM hrem
    show tickN n (schedulerTick s) = _
    rw [tick_run hcur hget hns h100 (by omega) (by omega) hM]
    have hget2 : (s.tasks.set c { tk with timeRemaining := tk.timeRemaining - 1 }).get? c
        = some { tk with timeRemaining := tk.timeRemaining - 1 } :=
      get?_set_self2 hget _
    have hns2 : ∀ tk2 ∈ s.tasks.set c { tk with timeRemaining := tk.timeRemaining - 1 },
        tk2.state ≠ TState.sleeping := by
      intro tk2 hmem
      rcases List.mem_or_eq_of_mem_set hmem with hmem2 | he
      · exact hns tk2 hmem2
      · rw [he]
        exact hns tk (List.get?_mem hget)
    rw [ih { s with ticks := s.ticks + 1, tasks := s.tasks.set c { tk with timeRemaining := tk.timeRemaining - 1 } }
        { tk with timeRemaining := tk.timeRemaining - 1 }
        hcur hget2 hns2 (by show 100 ≤ s.ticks + 1; omega)
        (by show s.ticks + 1 + n < M32; omega)
        (by show tk.timeRemaining - 1 < M32; omega)
        (by show n + 1 ≤ tk.timeRemaining - 1; omega)]
    dsimp only
    rw [List.set_set]
    have e1 : s.ticks + 1 + n = s.ticks + (n + 1) := by omega
    have e2 : tk.timeRemaining - 1 - n = tk.timeRemaining - (n + 1) := by omega
    rw [e1, e2]

/-! ## Claim theorems -/

/-- C1, counterexample: the claimed equation used + free = arena size
minus the total header overhead of the existing blocks already fails on
the reachable heap obtained from mm_init by a single splitting
kmalloc(104): the counters still sum to arena minus one header although
two block headers exist. -/
theorem claim_c1_counterexample :
    Reach (kmalloc initHeap 104).1
    ∧ ¬ ((kmalloc initHeap 104).1.used + (kmalloc initHeap 104).1.free
          = heapCap - headerSize * (kmalloc initHeap 104).1.blocks.length) :=
  ⟨Reach.malloc 104 Reach.init, by decide⟩

/-- C1 (amended): in every heap state reachable from mm_init by any
sequence of kmalloc / kfree / krealloc operations, the block list
exactly tiles the arena (headers plus payloads sum to the arena size,
hence no gaps and no overlaps), and used_memory + free_memory is the
constant arena size minus ONE header (their mm_init value, in 32-bit
arithmetic) - not arena minus the current total header overhead. -/
theorem claim_c1_amended {h : Heap} (hr : Reach h) :
    sizeSum h.blocks = heapCap
      ∧ (h.used + h.free) % M32 = heapCap - headerSize :=
  conserved_reach hr

/-- Witness for C1 (amended) at the heap reached by one kmalloc(104). -/
theorem claim_c1_witness :
    sizeSum (kmalloc initHeap 104).1.blocks = heapCap
      ∧ ((kmalloc initHeap 104).1.used + (kmalloc initHeap 104).1.free) % M32
          = heapCap - headerSize :=
  claim_c1_amended (Reach.malloc 104 Reach.init)

/-- C2, counterexample: c2Heap is reachable from mm_init (using
krealloc), and after kfree of its block 4 returns, blocks 1 and 2 are
still both free and adjacent - the no-adjacent-free property fails on
heaps reachable through the krealloc in-place split. -/
theorem claim_c2_counterexample :
    Reach c2Heap ∧ noAdjB (kfree c2Heap 4).blocks = false :=
  ⟨Reach.realloc 0 8
      (Reach.free 1
        (Reach.malloc 40 (Reach.malloc 40 (Reach.malloc 40
          (Reach.malloc 104 Reach.init))))
        (by decide))
      (by decide),
   by decide⟩

/-- C2 (amended): after any kfree returns, on any heap state reachable
from mm_init by kmalloc and kfree operations alone (krealloc excluded:
its in-place split can create an adjacent free pair that a later kfree
elsewhere does not coalesce), no two blocks adjacent in the
address-ordered list are both free. -/
theorem claim_c2_amended {h : Heap} (hr : ReachMF h) (i : Nat) :
    noAdjB (kfree h i).blocks = true :=
  kfree_noAdj (noAdj_reachMF hr) i

/-- Witness for C2 (amended): free the block allocated by kmalloc(104). -/
theorem claim_c2_witness :
    noAdjB (kfree (kmalloc initHeap 104).1 0).blocks = true :=
  claim_c2_amended (ReachMF.malloc 104 ReachMF.init) 0

/-- C3: on the heap whose list is a free 50-byte block followed by a
free 200-byte block, allocate(60) skips the 50-block and splits the
200-block into a used block of 64 = align8(60) bytes followed by a free
remainder of 200 - 64 - 16 bytes (whatever the counters were); and in
general a successful scan takes the first free block in address order
with capacity at least the requested size, splitting it exactly when
its size strictly exceeds the request plus one header plus 32 bytes. -/
theorem claim_c3_first_fit :
    (∀ u f : Nat,
      kmalloc ⟨[⟨50, true⟩, ⟨200, true⟩], u, f⟩ 60
        = (⟨[⟨50, true⟩, ⟨64, false⟩, ⟨120, true⟩], wadd u 64, wsub f 64⟩,
           some ⟨1, true⟩))
    ∧ (∀ (bs : List Block) (sz : Nat) (out : GoOut),
        kmallocGo sz bs = some out →
        ∃ b, bs.get? out.idx = some b ∧ b.isFree = true ∧ sz ≤ b.size ∧
          (∀ j c, j < out.idx → bs.get? j = some c →
            c.isFree = false ∨ c.size < sz) ∧
          (out.didSplit = true ↔ sz + headerSize + 32 < b.size) ∧
          out.blocks = bs.take out.idx
            ++ (if sz + headerSize + 32 < b.size then
                  [⟨sz, false⟩, ⟨b.size - sz - headerSize, true⟩]
                else [(⟨b.size, false⟩ : Block)])
            ++ bs.drop (out.idx + 1)) := by
  refine ⟨fun u f => rfl, fun bs sz out h => ?_⟩
  obtain ⟨b, h1, h2, h3, h4, h5, h6, h7⟩ := kmallocGo_spec h
  exact ⟨b, h1, h2, h3, h4, h5, h6⟩

/-- Witness for C3 at the 50 / 200 heap with counters 0 / 250. -/
theorem claim_c3_witness :
    kmalloc ⟨[⟨50, true⟩, ⟨200, true⟩], 0, 250⟩ 60
      = (⟨[⟨50, true⟩, ⟨64, false⟩, ⟨120, true⟩], wadd 0 64, wsub 250 64⟩,
         some ⟨1, true⟩)
    ∧ ∃ b, [(⟨50, true⟩ : Block), ⟨200, true⟩].get? 1 = some b
        ∧ b.isFree = true ∧ (64 : Nat) ≤ b.size := by
  constructor
  · exact claim_c3_first_fit.1 0 250
  · obtain ⟨b, hb, hf, hsz, -, -, -⟩ :=
      claim_c3_first_fit.2 [⟨50, true⟩, ⟨200, true⟩] 64
        ⟨[⟨50, true⟩, ⟨64, false⟩, ⟨120, true⟩], 64, 1, true⟩ (by rfl)
    exact ⟨b, hb, hf, hsz⟩

/-- C4: dispatching any vector between 32 and 255 emits the
End-Of-Interrupt writes strictly before any handler invocation: the
trace is the EOI part (slave PIC exactly when the IRQ number
vector - 32 is at least 8, then always the master PIC) followed by the
handler part, which is empty when no handler is registered - the master
EOI is present in every case, and the EOI part contains no handler
invocation. -/
theorem claim_c4_eoi_order (registered : Nat → Bool) (v : Nat)
    (h32 : 32 ≤ v) (h255 : v ≤ 255) :
    irqDispatch registered v
      = (if 8 ≤ v - 32 then [PicEvent.eoiSlave, PicEvent.eoiMaster]
         else [PicEvent.eoiMaster])
        ++ (if registered v then [PicEvent.runHandler v] else [])
    ∧ PicEvent.eoiMaster ∈ irqDispatch registered v
    ∧ (PicEvent.eoiSlave ∈ irqDispatch registered v ↔ 8 ≤ v - 32)
    ∧ (∀ e, PicEvent.runHandler e
        ∉ (if 8 ≤ v - 32 then [PicEvent.eoiSlave, PicEvent.eoiMaster]
           else [PicEvent.eoiMaster])) := by
  have hmod : (v - 32) % 256 = v - 32 := Nat.mod_eq_of_lt (by omega)
  have heq : irqDispatch registered v
      = (if 8 ≤ v - 32 then [PicEvent.eoiSlave, PicEvent.eoiMaster]
         else [PicEvent.eoiMaster])
        ++ (if registered v then [PicEvent.runHandler v] else []) := by
    unfold irqDispatch irqAck
    rw [hmod]
    by_cases h8 : 8 ≤ v - 32 <;> simp [h8]
  refine ⟨heq, ?_, ?_, ?_⟩
  · rw [heq]
    by_cases h8 : 8 ≤ v - 32 <;> by_cases hr : registered v <;> simp [h8, hr]
  · rw [heq]
    by_cases h8 : 8 ≤ v - 32 <;> by_cases hr : registered v <;> simp [h8, hr]
  · intro e
    by_cases h8 : 8 ≤ v - 32 <;> simp [h8]

/-- Witness for C4 at vector 33 (IRQ 1, so no slave EOI) with an empty
handler table: the master EOI is still sent. -/
theorem claim_c4_witness :
    irqDispatch (fun _ => false) 33 = [PicEvent.eoiMaster]
    ∧ PicEvent.eoiMaster ∈ irqDispatch (fun _ => false) 33 := by
  have h := claim_c4_eoi_order (fun _ => false) 33 (by decide) (by decide)
  refine ⟨?_, h.2.1⟩
  rw [h.1]
  decide

/-- C5: dispatching a vector below 32 with no registered handler prints
the fixed canonical name from the exception table (which covers all 32
exception vectors) and enters the permanent halt loop, never returning
to the interrupted context; with a registered handler, the handler runs
and no halt occurs; an unhandled vector at or above 32 would be
reported as Unknown Exception. -/
theorem claim_c5_fatal (registered : Nat → Bool) (v : Nat) (hv : v < 32) :
    (registered v = false →
      isrDispatch registered v = IsrOutcome.halted (exceptionMessages.getD v ""))
    ∧ (registered v = true → isrDispatch registered v = IsrOutcome.handled v)
    ∧ exceptionMessages.length = 32
    ∧ (∀ v2, 32 ≤ v2 → registered v2 = false →
        isrDispatch registered v2 = IsrOutcome.halted "Unknown Exception") := by
  refine ⟨?_, ?_, rfl, ?_⟩
  · intro hr
    simp [isrDispatch, hr, hv]
  · intro hr
    simp [isrDispatch, hr]
  · intro v2 h32 hr
    simp [isrDispatch, hr, Nat.not_lt.mpr h32]

/-- Witness for C5 at vector 0 with an empty handler table. -/
theorem claim_c5_witness :
    isrDispatch (fun _ => false) 0 = IsrOutcome.halted "Division By Zero" := by
  have h := (claim_c5_fatal (fun _ => false) 0 (by decide)).1 rfl
  rw [h]
  rfl

/-- C9: the division-back overflow check divides by zero (undefined
behaviour of the C expression) whenever count = 0, so it is NOT
well-defined for every input; for every count >= 1 it is exact: kcalloc
fails iff count * size overflows the 32-bit size_t, and otherwise
performs kmalloc(count * size) (the zero-fill touches only payload
bytes, outside the block-list model). -/
theorem claim_c9_overflow_guard :
    kcalloc initHeap 0 1 = CallocResult.ub
    ∧ (∀ (h : Heap) (count size : Nat), 1 ≤ count → count * size < M32 →
        kcalloc h count size = CallocResult.alloc (kmalloc h (count * size)))
    ∧ (∀ (h : Heap) (count size : Nat), 1 ≤ count → M32 ≤ count * size →
        kcalloc h count size = CallocResult.overflowFail) := by
  refine ⟨rfl, ?_, ?_⟩
  · intro h count size h1 hlt
    unfold kcalloc
    rw [if_neg (by omega)]
    have htot : (count * size) % M32 = count * size := Nat.mod_eq_of_lt hlt
    rw [htot, if_pos (Nat.mul_div_cancel_left size (by omega))]
  · intro h count size h1 hge
    unfold kcalloc
    rw [if_neg (by omega)]
    have hM : 0 < M32 := by decide
    have hlt : (count * size) % M32 < count * size :=
      lt_of_lt_of_le (Nat.mod_lt _ hM) hge
    have hdiv : (count * size) % M32 / count < size := by
      rw [Nat.div_lt_iff_lt_mul (by omega : 0 < count)]
      calc (count * size) % M32 < count * size := hlt
        _ = size * count := Nat.mul_comm count size
    rw [if_neg (by omega)]

/-- Witness for C9: a small non-overflowing call and an overflowing
call, both with count >= 1. -/
theorem claim_c9_witness :
    kcalloc initHeap 2 8 = CallocResult.alloc (kmalloc initHeap 16)
    ∧ kcalloc initHeap 1 M32 = CallocResult.overflowFail := by
  constructor
  · exact claim_c9_overflow_guard.2.1 initHeap 2 8 (by decide) (by decide)
  · exact claim_c9_overflow_guard.2.2 initHeap 1 M32 (by decide) (by decide)

/-- C10: schedule() invoked on an empty ready queue returns leaving the
whole scheduler state - task pool, lifecycle states, remaining slices,
current task pointer, ready queue, tick counter and execution trace -
exactly unchanged. -/
theorem claim_c10_empty_schedule (s : Sched) (h : s.queue = []) :
    schedule s = s := by
  unfold schedule
  rw [h]

/-- Witness for C10 on the freshly initialized scheduler. -/
theorem claim_c10_witness : schedule initSched = initSched :=
  claim_c10_empty_schedule initSched rfl

/-- C6: with three tasks A, B, C created in that order (ids 1, 2, 3,
slots 0, 1, 2, each slice 10), dispatched by one schedule() call, and
the grace window elapsed (tick counter t >= 100, no wraparound), 35
timer ticks with no voluntary calls install tasks in the order
A, B, C, A; after the 10th tick the exhausted A sits at the ready-queue
tail behind C with its slice reset to 10 and state READY, and after all
35 ticks A is current again with 5 remaining ticks and B, C queued. -/
theorem claim_c6_round_robin (t : Nat) (h100 : 100 ≤ t) (hov : t + 36 < M32) :
    (tickN 35 (schedule (c6Start t))).trace = [1, 2, 3, 1]
    ∧ (tickN 35 (schedule (c6Start t))).queue = [1, 2]
    ∧ (tickN 10 (schedule (c6Start t))).queue = [2, 0]
    ∧ (tickN 10 (schedule (c6Start t))).tasks.get? 0
        = some ⟨1, TState.ready, 10, 10, 0⟩ := by
  have hA : schedule (c6Start t) = Sched.mk [(⟨1, TState.running, 10, 10, 0⟩ : Task), (⟨2, TState.ready, 10, 10, 0⟩ : Task), (⟨3, TState.ready, 10, 10, 0⟩ : Task), initTask, initTask, initTask, initTask, initTask] [1, 2] (some 0) (t) 4 [1] := rfl
  have hop1 : tickN 10 (Sched.mk [(⟨1, TState.running, 10, 10, 0⟩ : Task), (⟨2, TState.ready, 10, 10, 0⟩ : Task), (⟨3, TState.ready, 10, 10, 0⟩ : Task), initTask, initTask, initTask, initTask, initTask] [1, 2] (some 0) (t) 4 [1])
      = Sched.mk [(⟨1, TState.ready, 10, 10, 0⟩ : Task), (⟨2, TState.running, 10, 10, 0⟩ : Task), (⟨3, TState.ready, 10, 10, 0⟩ : Task), initTask, initTask, initTask, initTask, initTask] [2, 0] (some 1) (t + 10) 4 [1, 2] := by
    rw [show (10 : Nat) = 9 + 1 from rfl, tickN_add]
    rw [tickN_run 9 (Sched.mk [(⟨1, TState.running, 10, 10, 0⟩ : Task), (⟨2, TState.ready, 10, 10, 0⟩ : Task), (⟨3, TState.ready, 10, 10, 0⟩ : Task), initTask, initTask, initTask, initTask, initTask] [1, 2] (some 0) (t) 4 [1])
      (⟨1, TState.running, 10, 10, 0⟩ : Task) rfl rfl
      (by show ∀ tk2 ∈ [(⟨1, TState.running, 10, 10, 0⟩ : Task), (⟨2, TState.ready, 10, 10, 0⟩ : Task), (⟨3, TState.ready, 10, 10, 0⟩ : Task), initTask, initTask, initTask, initTask, initTask], tk2.state ≠ TState.sleeping; decide)
      (by show 100 ≤ t; omega)
      (by show t + 9 < M32; omega) (by decide) (by decide)]
    show schedulerTick (Sched.mk [(⟨1, TState.running, 10, 1, 0⟩ : Task), (⟨2, TState.ready, 10, 10, 0⟩ : Task), (⟨3, TState.ready, 10, 10, 0⟩ : Task), initTask, initTask, initTask, initTask, initTask] [1, 2] (some 0) (t + 9) 4 [1]) = _
    rw [tick_exhaust (s := Sched.mk [(⟨1, TState.running, 10, 1, 0⟩ : Task), (⟨2, TState.ready, 10, 10, 0⟩ : Task), (⟨3, TState.ready, 10, 10, 0⟩ : Task), initTask, initTask, initTask, initTask, initTask] [1, 2] (some 0) (t + 9) 4 [1]) (c := 0) rfl rfl
      (by show ∀ tk2 ∈ [(⟨1, TState.running, 10, 1, 0⟩ : Task), (⟨2, TState.ready, 10, 10, 0⟩ : Task), (⟨3, TState.ready, 10, 10, 0⟩ : Task), initTask, initTask, initTask, initTask, initTask], tk2.state ≠ TState.sleeping; decide)
      (by show 100 ≤ t + 9; omega) (by show t + 9 + 1 < M32; omega) rfl]
    rfl

  have hop2 : tickN 10 (Sched.mk [(⟨1, TState.ready, 10, 10, 0⟩ : Task), (⟨2, TState.running, 10, 10, 0⟩ : Task), (⟨3, TState.ready, 10, 10, 0⟩ : Task), initTask, initTask, initTask, initTask, initTask] [2, 0] (some 1) (t + 10) 4 [1, 2])
      = Sched.mk [(⟨1, TState.ready, 10, 10, 0⟩ : Task), (⟨2, TState.ready, 10, 10, 0⟩ : Task), (⟨3, TState.running, 10, 10, 0⟩ : Task), initTask, initTask, initTask, initTask, initTask] [0, 1] (some 2) (t + 20) 4 [1, 2, 3] := by
    rw [show (10 : Nat) = 9 + 1 from rfl, tickN_add]
    rw [tickN_run 9 (Sched.mk [(⟨1, TState.ready, 10, 10, 0⟩ : Task), (⟨2, TState.running, 10, 10, 0⟩ : Task), (⟨3, TState.ready, 10, 10, 0⟩ : Task), initTask, initTask, initTask, initTask, initTask] [2, 0] (some 1) (t + 10) 4 [1, 2])
      (⟨2, TState.running, 10, 10, 0⟩ : Task) rfl rfl
      (by show ∀ tk2 ∈ [(⟨1, TState.ready, 10, 10, 0⟩ : Task), (⟨2, TState.running, 10, 10, 0⟩ : Task), (⟨3, TState.ready, 10, 10, 0⟩ : Task), initTask, initTask, initTask, initTask, initTask], tk2.state ≠ TState.sleeping; decide)
      (by show 100 ≤ t + 10; omega)
      (by show t + 10 + 9 < M32; omega) (by decide) (by decide)]
    show schedulerTick (Sched.mk [(⟨1, TState.ready, 10, 10, 0⟩ : Task), (⟨2, TState.running, 10, 1, 0⟩ : Task), (⟨3, TState.ready, 10, 10, 0⟩ : Task), initTask, initTask, initTask, initTask, initTask] [2, 0] (some 1) (t + 19) 4 [1, 2]) = _
    rw [tick_exhaust (s := Sched.mk [(⟨1, TState.ready, 10, 10, 0⟩ : Task), (⟨2, TState.running, 10, 1, 0⟩ : Task), (⟨3, TState.ready, 10, 10, 0⟩ : Task), initTask, initTask, initTask, initTask, initTask] [2, 0] (some 1) (t + 19) 4 [1, 2]) (c := 1) rfl rfl
      (by show ∀ tk2 ∈ [(⟨1, TState.ready, 10, 10, 0⟩ : Task), (⟨2, TState.running, 10, 1, 0⟩ : Task), (⟨3, TState.ready, 10, 10, 0⟩ : Task), initTask, initTask, initTask, initTask, initTask], tk2.state ≠ TState.sleeping; decide)
      (by show 100 ≤ t + 10 + 9; omega) (by show t + 10 + 9 + 1 < M32; omega) rfl]
    rfl

  have hop3 : tickN 10 (Sched.mk [(⟨1, TState.ready, 10, 10, 0⟩ : Task), (⟨2, TState.ready, 10, 10, 0⟩ : Task), (⟨3, TState.running, 10, 10, 0⟩ : Task), initTask, initTask, initTask, initTask, initTask] [0, 1] (some 2) (t + 20) 4 [1, 2, 3])
      = Sched.mk [(⟨1, TState.running, 10, 10, 0⟩ : Task), (⟨2, TState.ready, 10, 10, 0⟩ : Task), (⟨3, TState.ready, 10, 10, 0⟩ : Task), initTask, initTask, initTask, initTask, initTask] [1, 2] (some 0) (t + 30) 4 [1, 2, 3, 1] := by
    rw [show (10 : Nat) = 9 + 1 from rfl, tickN_add]
    rw [tickN_run 9 (Sched.mk [(⟨1, TState.ready, 10, 10, 0⟩ : Task), (⟨2, TState.ready, 10, 10, 0⟩ : Task), (⟨3, TState.running, 10, 10, 0⟩ : Task), initTask, initTask, initTask, initTask, initTask] [0, 1] (some 2) (t + 20) 4 [1, 2, 3])
      (⟨3, TState.running, 10, 10, 0⟩ : Task) rfl rfl
      (by show ∀ tk2 ∈ [(⟨1, TState.ready, 10, 10, 0⟩ : Task), (⟨2, TState.ready, 10, 10, 0⟩ : Task), (⟨3, TState.running, 10, 10, 0⟩ : Task), initTask, initTask, initTask, initTask, initTask], tk2.state ≠ TState.sleeping; decide)
      (by show 100 ≤ t + 20; omega)
      (by show t + 20 + 9 < M32; omega) (by decide) (by decide)]
    show schedulerTick (Sched.mk [(⟨1, TState.ready, 10, 10, 0⟩ : Task), (⟨2, TState.ready, 10, 10, 0⟩ : Task), (⟨3, TState.running, 10, 1, 0⟩ : Task), initTask, initTask, initTask, initTask, initTask] [0, 1] (some 2) (t + 29) 4 [1, 2, 3]) = _
    rw [tick_exhaust (s := Sched.mk [(⟨1, TState.ready, 10, 10, 0⟩ : Task), (⟨2, TState.ready, 10, 10, 0⟩ : Task), (⟨3, TState.running, 10, 1, 0⟩ : Task), initTask, initTask, initTask, initTask, initTask] [0, 1] (some 2) (t + 29) 4 [1, 2, 3]) (c := 2) rfl rfl
      (by show ∀ tk2 ∈ [(⟨1, TState.ready, 10, 10, 0⟩ : Task), (⟨2, TState.ready, 10, 10, 0⟩ : Task), (⟨3, TState.running, 10, 1, 0⟩ : Task), initTask, initTask, initTask, initTask, initTask], tk2.state ≠ TState.sleeping; decide)
      (by show 100 ≤ t + 20 + 9; omega) (by show t + 20 + 9 + 1 < M32; omega) rfl]
    rfl

  have htail : tickN 5 (Sched.mk [(⟨1, TState.running, 10, 10, 0⟩ : Task), (⟨2, TState.ready, 10, 10, 0⟩ : Task), (⟨3, TState.ready, 10, 10, 0⟩ : Task), initTask, initTask, initTask, initTask, initTask] [1, 2] (some 0) (t + 30) 4 [1, 2, 3, 1]) = Sched.mk [(⟨1, TState.running, 10, 5, 0⟩ : Task), (⟨2, TState.ready, 10, 10, 0⟩ : Task), (⟨3, TState.ready, 10, 10, 0⟩ : Task), initTask, initTask, initTask, initTask, initTask] [1, 2] (some 0) (t + 35) 4 [1, 2, 3, 1] := by
    rw [tickN_run 5 (Sched.mk [(⟨1, TState.running, 10, 10, 0⟩ : Task), (⟨2, TState.ready, 10, 10, 0⟩ : Task), (⟨3, TState.ready, 10, 10, 0⟩ : Task), initTask, initTask, initTask, initTask, initTask] [1, 2] (some 0) (t + 30) 4 [1, 2, 3, 1])
      (⟨1, TState.running, 10, 10, 0⟩ : Task) rfl rfl
      (by show ∀ tk2 ∈ [(⟨1, TState.running, 10, 10, 0⟩ : Task), (⟨2, TState.ready, 10, 10, 0⟩ : Task), (⟨3, TState.ready, 10, 10, 0⟩ : Task), initTask, initTask, initTask, initTask, initTask], tk2.state ≠ TState.sleeping; decide)
      (by show 100 ≤ t + 30; omega)
      (by show t + 30 + 5 < M32; omega) (by decide) (by decide)]
    rfl
  have hfull : tickN 35 (schedule (c6Start t)) = Sched.mk [(⟨1, TState.running, 10, 5, 0⟩ : Task), (⟨2, TState.ready, 10, 10, 0⟩ : Task), (⟨3, TState.ready, 10, 10, 0⟩ : Task), initTask, initTask, initTask, initTask, initTask] [1, 2] (some 0) (t + 35) 4 [1, 2, 3, 1] := by
    rw [hA, show (35 : Nat) = 10 + (10 + (10 + 5)) from rfl, tickN_add, hop1,
      tickN_add, hop2, tickN_add, hop3, htail]
  have h10full : tickN 10 (schedule (c6Start t)) = Sched.mk [(⟨1, TState.ready, 10, 10, 0⟩ : Task), (⟨2, TState.running, 10, 10, 0⟩ : Task), (⟨3, TState.ready, 10, 10, 0⟩ : Task), initTask, initTask, initTask, initTask, initTask] [2, 0] (some 1) (t + 10) 4 [1, 2] := by
    rw [hA, hop1]
  refine ⟨?_, ?_, ?_, ?_⟩
  · rw [hfull]
  · rw [hfull]
  · rw [h10full]
  · rw [h10full]
    rfl

/-- Witness for C6 with the grace window modelled as start tick 1000. -/
theorem claim_c6_witness :
    (tickN 35 (schedule (c6Start 1000))).trace = [1, 2, 3, 1]
    ∧ (tickN 35 (schedule (c6Start 1000))).queue = [1, 2]
    ∧ (tickN 10 (schedule (c6Start 1000))).queue = [2, 0]
    ∧ (tickN 10 (schedule (c6Start 1000))).tasks.get? 0
        = some ⟨1, TState.ready, 10, 10, 0⟩ :=
  claim_c6_round_robin 1000 (by decide) (by decide)

/-- C7, counterexample: run c7Trace from a fresh scheduler.  The task
calls sleep(5) at tick 5 (so T = 5, k = 5, wake time 10), but because
it was woken and re-enqueued while still being current_task, the
schedule() inside that second task_sleep dequeues the caller itself and
marks it RUNNING immediately: at counter 5 < 10 the task is RUNNING,
and it is still RUNNING after the next tick (counter 6 < 10) - the
claim that a sleeping task is never RUNNING below T + k is false. -/
theorem claim_c7_counterexample :
    ((stepList initSched c7Trace).tasks.getD 0 initTask).state = TState.running
    ∧ (stepList initSched c7Trace).ticks = 5
    ∧ ((stepList initSched c7Trace).tasks.getD 0 initTask).sleepUntil = 10
    ∧ (stepList initSched c7Trace).current = some 0
    ∧ ((stepList initSched (c7Trace ++ [SOp.tick])).tasks.getD 0 initTask).state
        = TState.running
    ∧ (stepList initSched (c7Trace ++ [SOp.tick])).ticks = 6 := by
  decide

/-- C7 (amended): if a task calls sleep(k) at tick T while the ready
queue is non-empty and does not contain the caller (so the sleep
actually hands the CPU to another task), and the tick counter does not
overflow, then: (a) under any further sequence of scheduler calls, as
long as fewer than k ticks have elapsed the task is still SLEEPING with
wake time T + k (in particular never RUNNING and never READY before
T + k); and (b) the tick that first brings the counter to T + k makes
it READY (or RUNNING, if that same tick exhausts the current slice and
the scheduler immediately dispatches it). -/
theorem claim_c7_amended (s : Sched) (c k : Nat) (tk : Task)
    (hcur : s.current = some c) (hget : s.tasks.get? c = some tk)
    (hqne : s.queue ≠ []) (hqc : c ∉ s.queue)
    (hc8 : c < MAX_TASKS) (hov : s.ticks + k + 1 < M32) :
    (∀ l : List SOp, s.ticks + countTicks l < s.ticks + k →
      ∃ tk2, (stepList (taskSleep s k) l).tasks.get? c = some tk2
        ∧ tk2.state = TState.sleeping ∧ tk2.sleepUntil = s.ticks + k
        ∧ (stepList (taskSleep s k) l).ticks < s.ticks + k)
    ∧ (∀ l : List SOp, s.ticks + countTicks l + 1 = s.ticks + k →
        ∃ tk2, (schedulerTick (stepList (taskSleep s k) l)).tasks.get? c = some tk2
          ∧ (tk2.state = TState.ready ∨ tk2.state = TState.running)) := by
  have hwM : s.ticks + k < M32 := by omega
  have hws : wadd s.ticks k = s.ticks + k := Nat.mod_eq_of_lt hwM
  have hsleep : taskSleep s k
      = schedule { s with tasks := s.tasks.set c { tk with state := TState.sleeping, sleepUntil := wadd s.ticks k } } := by
    unfold taskSleep
    rw [hcur]
    dsimp only
    rw [hget]
  have hget2 : ({ s with tasks := s.tasks.set c { tk with state := TState.sleeping, sleepUntil := wadd s.ticks k } } : Sched).tasks.get? c
      = some { tk with state := TState.sleeping, sleepUntil := wadd s.ticks k } :=
    get?_set_self2 hget _
  obtain ⟨q1, q2, q3, q4⟩ := schedule_nonrunning_start
    (show ({ s with tasks := s.tasks.set c { tk with state := TState.sleeping, sleepUntil := wadd s.ticks k } } : Sched).current = some c from hcur)
    hget2
    (fun hcon => TState.noConfusion hcon)
    (show c ∉ ({ s with tasks := s.tasks.set c { tk with state := TState.sleeping, sleepUntil := wadd s.ticks k } } : Sched).queue from hqc)
    (show ({ s with tasks := s.tasks.set c { tk with state := TState.sleeping, sleepUntil := wadd s.ticks k } } : Sched).queue ≠ [] from hqne)
  have hsh : Shielded c
      (fun tk2 => tk2.state = TState.sleeping ∧ tk2.sleepUntil = s.ticks + k)
      (taskSleep s k) := by
    rw [hsleep]
    refine ⟨⟨{ tk with state := TState.sleeping, sleepUntil := wadd s.ticks k },
      q1, rfl, ?_⟩, q3, q2⟩
    show wadd s.ticks k = s.ticks + k
    exact hws
  have hticks0 : (taskSleep s k).ticks = s.ticks := by
    rw [hsleep]
    exact q4
  constructor
  · intro l hl
    obtain ⟨⟨tk2, hg2, hst2, hsu2⟩, -, -⟩ := And.left
      (shielded_sleep_run hwM l (taskSleep s k) hsh (by rw [hticks0]; omega))
    have hticksF := And.right
      (shielded_sleep_run hwM l (taskSleep s k) hsh (by rw [hticks0]; omega))
    refine ⟨tk2, hg2, hst2, hsu2, ?_⟩
    rw [hticksF, hticks0]
    omega
  · intro l hl
    have hlt : s.ticks + countTicks l < s.ticks + k := by omega
    obtain ⟨hshF, hticksF⟩ :=
      shielded_sleep_run hwM l (taskSleep s k) hsh (by rw [hticks0]; omega)
    obtain ⟨⟨tk2, hg2, hst2, hsu2⟩, hq2, hc2⟩ := hshF
    refine tick_wakes hg2 hst2 hsu2 hc2 hc8 ?_ ?_
    · rw [hticksF, hticks0]
      omega
    · rw [hticksF, hticks0]
      omega

/-- Witness for C7 (amended): two tasks created on a fresh scheduler,
the first dispatched; it sleeps 5 ticks with task 2 queued; with the
empty call list, the task is sleeping with wake time 5. -/
theorem claim_c7_witness :
    ∃ tk2, (stepList (taskSleep
        (stepList initSched [SOp.create, SOp.create, SOp.yield]) 5) []).tasks.get? 0
        = some tk2
      ∧ tk2.state = TState.sleeping := by
  obtain ⟨ha, -⟩ := claim_c7_amended
    (stepList initSched [SOp.create, SOp.create, SOp.yield]) 0 5
    ⟨1, TState.running, 10, 10, 0⟩
    (by decide) (by decide) (by decide) (by decide) (by decide) (by decide)
  obtain ⟨tk2, hg, hst, -, -⟩ := ha [] (by decide)
  exact ⟨tk2, hg, hst⟩

/-- C8, counterexample: run c8Trace from a fresh scheduler.  The task
calls exit() while it is still current_task AND in the ready queue (the
woken-while-current anomaly): task_exit marks it TERMINATED and clears
current_task, but the schedule() it calls dequeues the exiting task
itself and switches back to it - afterwards the task (same id 1) is
RUNNING, is current again, and the execution trace shows it installed a
second time, so control does return to the exiting task. -/
theorem claim_c8_counterexample :
    ((stepList initSched c8Trace).tasks.getD 0 initTask).state = TState.running
    ∧ ((stepList initSched c8Trace).tasks.getD 0 initTask).id = 1
    ∧ (stepList initSched c8Trace).current = some 0
    ∧ (stepList initSched c8Trace).trace = [1, 1] := by
  decide

/-- C8 (amended): if the current task calls exit() while it is not in
the ready queue (the normal case), it is marked TERMINATED, the task
installed afterwards (if any) is not the caller, and under any further
sequence of scheduler calls not containing task_create (which may reuse
the slot for a new task) the slot stays TERMINATED - control never
returns to the exiting task. -/
theorem claim_c8_amended (s : Sched) (c : Nat) (tk : Task)
    (hcur : s.current = some c) (hget : s.tasks.get? c = some tk)
    (hqc : c ∉ s.queue) :
    (∃ tk2, (taskExit s).tasks.get? c = some tk2 ∧ tk2.state = TState.terminated)
    ∧ (taskExit s).current ≠ some c
    ∧ (∀ l : List SOp, SOp.create ∉ l →
        ∃ tk2, (stepList (taskExit s) l).tasks.get? c = some tk2
          ∧ tk2.state = TState.terminated) := by
  have hexit : taskExit s
      = schedule { s with tasks := s.tasks.set c { tk with state := TState.terminated }, current := none } := by
    unfold taskExit
    rw [hcur]
    dsimp only
    rw [hget]
  have hget2 : ({ s with tasks := s.tasks.set c { tk with state := TState.terminated }, current := none } : Sched).tasks.get? c
      = some { tk with state := TState.terminated } :=
    get?_set_self2 hget _
  obtain ⟨p1, p2, p3, -⟩ := schedule_pres (c := c)
    (show c ∉ ({ s with tasks := s.tasks.set c { tk with state := TState.terminated }, current := none } : Sched).queue from hqc)
    (by simp)
  have hsh : Shielded c (fun tk2 => tk2.state = TState.terminated) (taskExit s) := by
    rw [hexit]
    exact ⟨⟨{ tk with state := TState.terminated }, by rw [p1]; exact hget2, rfl⟩, p3, p2⟩
  obtain ⟨⟨tk2, hg2, hst2⟩, hq2, hc2⟩ := hsh
  refine ⟨⟨tk2, hg2, hst2⟩, hc2, ?_⟩
  intro l hnc
  obtain ⟨⟨tk3, hg3, hst3⟩, -, -⟩ :=
    shielded_run_nocreate
      (fun tk4 (hP : tk4.state = TState.terminated) => by rw [hP]; simp)
      l (taskExit s)
      ⟨⟨tk2, hg2, hst2⟩, hq2, hc2⟩ hnc
  exact ⟨tk3, hg3, hst3⟩

/-- Witness for C8 (amended): two tasks created on a fresh scheduler,
the first dispatched; it exits with task 2 queued; after one further
tick its slot is still TERMINATED. -/
theorem claim_c8_witness :
    ∃ tk2, (stepList (taskExit
        (stepList initSched [SOp.create, SOp.create, SOp.yield])) [SOp.tick]).tasks.get? 0
        = some tk2
      ∧ tk2.state = TState.terminated := by
  obtain ⟨-, -, h3⟩ := claim_c8_amended
    (stepList initSched [SOp.create, SOp.create, SOp.yield]) 0
    ⟨1, TState.running, 10, 10, 0⟩
    (by decide) (by decide) (by decide)
  exact h3 [SOp.tick] (by decide)

end MiniCoreOS
